import Mathlib

set_option linter.unnecessarySeqFocus false
set_option maxRecDepth 4000

/-!
Verification development for the individual-reserving preprocessing pipeline.

The JavaScript source is embedded shallowly:
* JS numbers are modelled by `JSNum`: an exact rational together with the
  IEEE special values `NaN`, `+Infinity`, `-Infinity`.  Rounding of finite
  doubles is not modelled (finite arithmetic is exact), but the special-value
  algebra (propagation, truthiness, `isNaN`) follows ECMAScript.
* UTC calendar dates at day granularity are modelled either as a millisecond
  timestamp (`Int`, for the code that only adds days and compares dates) or as
  a `CalDate` (UTC year and month, for the code that only reads
  `getUTCFullYear`/`getUTCMonth`).
* `Math.sqrt` (used only by the mid-quarter index construction) is modelled by
  an abstract square-root function on nonnegative rationals, passed as an
  explicit parameter `sqrtFn`; on the special values it follows ECMAScript.
-/

namespace Reserving

/-- A JavaScript number: an exact finite rational or one of the IEEE special
values.  (Finite-precision rounding is not modelled.) -/
inductive JSNum where
  | fin (q : ℚ)
  | nan
  | inf
  | ninf
  deriving DecidableEq, Repr

namespace JSNum

/-- JS `+` on numbers. -/
def add : JSNum → JSNum → JSNum
  | fin a, fin b => fin (a + b)
  | nan, _ => nan
  | _, nan => nan
  | inf, inf => inf
  | inf, ninf => nan
  | ninf, inf => nan
  | ninf, ninf => ninf
  | inf, fin _ => inf
  | fin _, inf => inf
  | ninf, fin _ => ninf
  | fin _, ninf => ninf

/-- JS `*` on numbers. -/
def mul : JSNum → JSNum → JSNum
  | fin a, fin b => fin (a * b)
  | nan, _ => nan
  | _, nan => nan
  | inf, inf => inf
  | inf, ninf => ninf
  | ninf, inf => ninf
  | ninf, ninf => inf
  | inf, fin b => if b > 0 then inf else if b < 0 then ninf else nan
  | fin a, inf => if a > 0 then inf else if a < 0 then ninf else nan
  | ninf, fin b => if b > 0 then ninf else if b < 0 then inf else nan
  | fin a, ninf => if a > 0 then ninf else if a < 0 then inf else nan

/-- JS `/` on numbers.  (Signed zeros are not distinguished, so a finite
numerator over zero is sent to `+Infinity`/`-Infinity` by the numerator's
sign, and `0/0` to `NaN`.) -/
def div : JSNum → JSNum → JSNum
  | fin a, fin b =>
      if b = 0 then (if a = 0 then nan else if a > 0 then inf else ninf)
      else fin (a / b)
  | nan, _ => nan
  | _, nan => nan
  | inf, inf => nan
  | inf, ninf => nan
  | ninf, inf => nan
  | ninf, ninf => nan
  | inf, fin b => if b < 0 then ninf else inf
  | ninf, fin b => if b < 0 then inf else ninf
  | fin _, inf => fin 0
  | fin _, ninf => fin 0

/-- JS `isNaN`. -/
def isNaN : JSNum → Bool
  | nan => true
  | _ => false

/-- JS `Number.isFinite`. -/
def isFinite : JSNum → Bool
  | fin _ => true
  | _ => false

/-- JS boolean coercion of a number: `0` and `NaN` are falsy. -/
def truthy : JSNum → Bool
  | fin q => q ≠ 0
  | nan => false
  | _ => true

/-- JS boolean coercion of a possibly-absent number (`undefined`/`null` are
falsy). -/
def truthyO : Option JSNum → Bool
  | none => false
  | some x => x.truthy

/-- JS `Math.sqrt`, with the square root of nonnegative rationals supplied by
the abstract `sqrtFn`. -/
def sqrt (sqrtFn : ℚ → ℚ) : JSNum → JSNum
  | fin q => if q < 0 then nan else fin (sqrtFn q)
  | nan => nan
  | inf => inf
  | ninf => nan

protected theorem add_comm : ∀ a b : JSNum, add a b = add b a := by
  intro a b
  cases a <;> cases b <;> simp [add] <;> ring

protected theorem add_assoc : ∀ a b c : JSNum, add (add a b) c = add a (add b c) := by
  intro a b c
  cases a <;> cases b <;> cases c <;> simp [add] <;> ring

protected theorem add_zero' : ∀ a : JSNum, add a (fin 0) = a := by
  intro a; cases a <;> simp [add]

protected theorem zero_add' : ∀ a : JSNum, add (fin 0) a = a := by
  intro a; cases a <;> simp [add]

instance : Zero JSNum := ⟨fin 0⟩
instance : Add JSNum := ⟨add⟩

instance : AddCommMonoid JSNum where
  add_assoc := JSNum.add_assoc
  zero_add := JSNum.zero_add'
  add_zero := JSNum.add_zero'
  add_comm := JSNum.add_comm
  nsmul := nsmulRec
  nsmul_zero := fun _ => rfl
  nsmul_succ := fun _ _ => rfl

theorem add_def (a b : JSNum) : a + b = add a b := rfl

theorem zero_def : (0 : JSNum) = fin 0 := rfl

theorem fin_add_fin (a b : ℚ) : (fin a) + (fin b) = fin (a + b) := rfl

theorem mul_one' (a : JSNum) : mul a (fin 1) = a := by
  cases a <;> simp [mul]

end JSNum

/-- A calendar date as seen through `getUTCFullYear`/`getUTCMonth`
(the only accessors the quarter arithmetic uses). -/
structure CalDate where
  year : Int
  month : Fin 12
  deriving DecidableEq, Repr

/-- A quarter key `"YYYYQn"`, kept as the pair (year, quarter 1–4); the string
formatting is injective on these pairs. -/
abbrev QKey := Int × Int

/-- The result record of `getQuarterInfo`. -/
structure QuarterInfo where
  calendarYear : Int
  calendarQuarter : Int
  developmentQuarter : Int
  quarterKey : QKey
  deriving DecidableEq, Repr

/-- `getQuarterInfo(date, referenceDate)` from the source (valid-date path:
`CalDate`s are always valid, so the NaN fallback branch cannot fire). -/
def getQuarterInfo (date referenceDate : CalDate) : QuarterInfo :=
  let refYear := referenceDate.year
  let refQuarter : Int := ((referenceDate.month : Nat) / 3 : Nat)
  let dateYear := date.year
  let dateQuarter : Int := ((date.month : Nat) / 3 : Nat)
  let quartersSinceRef := (dateYear - refYear) * 4 + (dateQuarter - refQuarter)
  let clampedQuarters := max (-50) (min 50 quartersSinceRef)
  { calendarYear := dateYear
    calendarQuarter := dateQuarter + 1
    developmentQuarter := clampedQuarters
    quarterKey := (dateYear, dateQuarter + 1) }

/-- The unclamped development-quarter offset of `date` relative to
`referenceDate` (the value `getQuarterInfo` clamps into `[-50, 50]`). -/
def rawDevQuarter (date referenceDate : CalDate) : Int :=
  (date.year - referenceDate.year) * 4 +
    ((((date.month : Nat) / 3 : Nat) : Int) -
      (((referenceDate.month : Nat) / 3 : Nat) : Int))

theorem getQuarterInfo_developmentQuarter (date ref : CalDate) :
    (getQuarterInfo date ref).developmentQuarter =
      max (-50) (min 50 (rawDevQuarter date ref)) := rfl

/-- `setMonth(getMonth() + n)`: month arithmetic with year carry. -/
def addMonthsCal (d : CalDate) (n : Int) : CalDate :=
  let m := (d.month : Int) + n
  { year := d.year + m.ediv 12
    month := ⟨(m.emod 12).toNat, by
      have h1 : 0 ≤ m.emod 12 := Int.emod_nonneg m (by decide)
      have h2 : m.emod 12 < 12 := Int.emod_lt_of_pos m (by decide)
      omega⟩ }

/-- `prevQuarterKey` on structured quarter keys (the regex parse always
succeeds on keys built by `getQuarterInfo`). -/
def prevQKey (k : QKey) : QKey :=
  if k.2 - 1 < 1 then (k.1 - 1, 4) else (k.1, k.2 - 1)

/-- A price index map: quarterKey → index value, insertion-ordered
(a JS object with `"YYYYQn"` keys). -/
abbrev PIMap := List (QKey × JSNum)

/-- JS object property lookup (`map[key]`, `undefined` when absent). -/
def piLookup (m : PIMap) (k : QKey) : Option JSNum :=
  (m.find? (fun e => e.1 = k)).map (·.2)

/-- Lexical order on `"YYYYQn"` strings coincides with order on
(year, quarter) pairs for four-digit years; `Object.keys(...).sort()`. -/
def qkeyLe (a b : QKey) : Bool :=
  a.1 < b.1 || (a.1 = b.1 && a.2 ≤ b.2)

/-- `buildMidQuarterIndexMap`: mid-quarter index via geometric means of
end-of-quarter indices, with the first available quarter falling back to its
own end-of-quarter value. -/
def buildMidQuarterIndexMap (sqrtFn : ℚ → ℚ) (priceIndexMap : PIMap) : PIMap :=
  let sorted := priceIndexMap.insertionSort (fun a b => qkeyLe a.1 b.1 = true)
  sorted.map (fun e =>
    let k := e.1
    let prev := prevQKey k
    let eoq := piLookup priceIndexMap k
    let prevVal := piLookup priceIndexMap prev
    match eoq, prevVal with
    | some eoqV, some prevV =>
        if prevV.truthy && eoqV.truthy then
          (k, JSNum.sqrt sqrtFn (JSNum.mul prevV eoqV))
        else (k, eoqV)
    | some eoqV, none => (k, eoqV)
    -- `k` is a key of the map, so the lookup cannot miss:
    | none, _ => (k, JSNum.fin 0))

/-- A payment `{date, amount}`. -/
structure Payment where
  date : CalDate
  amount : JSNum
  deriving DecidableEq, Repr

/-- Static covariates attached to a claim (only the fields the aggregation
reads back out). -/
structure StaticCovariates where
  claimId : String
  postcode : String
  claimType : String
  region : String
  deriving DecidableEq, Repr

/-- A claim as consumed by the aggregation engine.  In the typed model every
field is present, so the untyped missing-field fallback of the source cannot
fire; the development-quarter-range fallback is modelled below. -/
structure Claim where
  accident : CalDate
  notify : CalDate
  settlement : CalDate
  staticCovariates : StaticCovariates
  payments : List Payment
  deriving DecidableEq, Repr

/-- One entry of the `quarterlyPayments` map: the spread of the first
payment's `QuarterInfo` plus the running totals. -/
structure Bucket where
  info : QuarterInfo
  totalAmount : JSNum
  paymentCount : Nat
  payments : List Payment
  deriving DecidableEq, Repr

/-- Process one payment into the insertion-ordered `quarterlyPayments` map:
create the empty entry when the quarter key is new, then accumulate. -/
def addToBuckets (accident : CalDate) (bs : List Bucket) (p : Payment) : List Bucket :=
  let qi := getQuarterInfo p.date accident
  match bs with
  | [] => [{ info := qi
             totalAmount := JSNum.add (JSNum.fin 0) p.amount
             paymentCount := 1
             payments := [p] }]
  | b :: rest =>
      if b.info.quarterKey = qi.quarterKey then
        { b with totalAmount := JSNum.add b.totalAmount p.amount
                 paymentCount := b.paymentCount + 1
                 payments := b.payments ++ [p] } :: rest
      else b :: addToBuckets accident rest p

/-- The `priceIndex` annotation attached to an inflation-adjusted record. -/
structure PriceIndexInfo where
  targetQuarterKey : QKey
  targetPI : Option JSNum
  sourceQuarterKey : QKey
  sourceMidPI : Option JSNum
  factor : JSNum
  deriving DecidableEq, Repr

/-- One quarterly record of the aggregation output.  (The adjusted branch of
the source also annotates each payment with `nominalAmount := amount` and
`inflationAdjusted := false`; both are display-only duplicates of `amount`
and are not modelled as separate fields.) -/
structure QuarterRecord where
  calendarYear : Int
  calendarQuarter : Int
  developmentQuarter : Int
  quarterKey : QKey
  totalAmount : JSNum
  nominalAmount : JSNum
  paymentCount : Nat
  payments : List Payment
  inflationAdjusted : Bool
  priceIndex : Option PriceIndexInfo
  deriving DecidableEq, Repr

/-- The `claimInfo` header of the aggregation output. -/
structure ClaimInfo where
  claimId : String
  accidentDate : CalDate
  notifyDate : CalDate
  settlementDate : CalDate
  accidentQuarter : QKey
  notifyQuarter : QKey
  notifyLag : Int
  deriving DecidableEq, Repr

/-- The aggregation output. -/
structure AggResult where
  claimInfo : ClaimInfo
  quarters : List QuarterRecord
  deriving DecidableEq, Repr

/-- The integer list `[a, a+1, …, b]` (empty when `b < a`): the values taken
by `for (let devQ = a; devQ <= b; devQ++)`. -/
def intRange (a b : Int) : List Int :=
  (List.range (b + 1 - a).toNat).map (fun i : Nat => a + (i : Int))

/-- The inflation-adjusted record built from a non-empty quarter bucket
(`observationEndDate` provided). -/
def adjustedRecordFor (sqrtFn : ℚ → ℚ) (claim : Claim) (obsEnd : CalDate)
    (priceIndexMap : Option PIMap) (existingQuarter : Bucket) : QuarterRecord :=
  let observationQuarterKey :=
    (getQuarterInfo obsEnd claim.accident).quarterKey
  let targetPI := priceIndexMap.bind (fun m => piLookup m observationQuarterKey)
  let midMap := priceIndexMap.map (buildMidQuarterIndexMap sqrtFn)
  let sourceMidPI :=
    midMap.bind (fun m => piLookup m existingQuarter.info.quarterKey)
  let nominalAmount := existingQuarter.totalAmount
  let factor :=
    if JSNum.truthyO targetPI && JSNum.truthyO sourceMidPI then
      JSNum.div (targetPI.getD (JSNum.fin 0)) (sourceMidPI.getD (JSNum.fin 0))
    else JSNum.fin 1
  let safeAdjustedAmount :=
    if factor.isNaN then nominalAmount else JSNum.mul nominalAmount factor
  { calendarYear := existingQuarter.info.calendarYear
    calendarQuarter := existingQuarter.info.calendarQuarter
    developmentQuarter := existingQuarter.info.developmentQuarter
    quarterKey := existingQuarter.info.quarterKey
    totalAmount := safeAdjustedAmount
    nominalAmount := nominalAmount
    paymentCount := existingQuarter.paymentCount
    payments := existingQuarter.payments
    inflationAdjusted := true
    priceIndex := some
      { targetQuarterKey := observationQuarterKey
        targetPI := targetPI
        sourceQuarterKey := existingQuarter.info.quarterKey
        sourceMidPI := sourceMidPI
        factor := factor } }

/-- The unadjusted record built from a non-empty quarter bucket. -/
def plainRecordFor (existingQuarter : Bucket) : QuarterRecord :=
  { calendarYear := existingQuarter.info.calendarYear
    calendarQuarter := existingQuarter.info.calendarQuarter
    developmentQuarter := existingQuarter.info.developmentQuarter
    quarterKey := existingQuarter.info.quarterKey
    totalAmount := existingQuarter.totalAmount
    nominalAmount := existingQuarter.totalAmount
    paymentCount := existingQuarter.paymentCount
    payments := existingQuarter.payments
    inflationAdjusted := false
    priceIndex := none }

/-- The explicit all-zero record built for a development quarter without
payments. -/
def emptyRecordFor (claim : Claim) (observationEndDate : Option CalDate)
    (devQ : Int) : QuarterRecord :=
  let quarterDate := addMonthsCal claim.accident (devQ * 3)
  let emptyQuarterInfo := getQuarterInfo quarterDate claim.accident
  { calendarYear := emptyQuarterInfo.calendarYear
    calendarQuarter := emptyQuarterInfo.calendarQuarter
    developmentQuarter := devQ
    quarterKey := emptyQuarterInfo.quarterKey
    totalAmount := JSNum.fin 0
    nominalAmount := JSNum.fin 0
    paymentCount := 0
    payments := []
    inflationAdjusted := observationEndDate.isSome
    priceIndex := none }

/-- The record built for development quarter `devQ` in the aggregation walk. -/
def aggRecordFor (sqrtFn : ℚ → ℚ) (claim : Claim)
    (observationEndDate : Option CalDate) (priceIndexMap : Option PIMap)
    (buckets : List Bucket) (devQ : Int) : QuarterRecord :=
  match buckets.find? (fun q => q.info.developmentQuarter = devQ) with
  | some existingQuarter =>
      match observationEndDate with
      | some obsEnd => adjustedRecordFor sqrtFn claim obsEnd priceIndexMap existingQuarter
      | none => plainRecordFor existingQuarter
  | none => emptyRecordFor claim observationEndDate devQ

/-- `aggregateClaimToQuarters` (typed path). -/
def aggregateClaimToQuarters (sqrtFn : ℚ → ℚ) (claim : Claim)
    (oneBasedDevQuarters : Bool) (observationEndDate : Option CalDate)
    (priceIndexMap : Option PIMap) : AggResult :=
  let accidentQuarter := getQuarterInfo claim.accident claim.accident
  let notifyQuarter := getQuarterInfo claim.notify claim.accident
  let settlementQuarter := getQuarterInfo claim.settlement claim.accident
  let quarterlyPayments := claim.payments.foldl (addToBuckets claim.accident) []
  let startDevQuarter := accidentQuarter.developmentQuarter
  let endDevQuarter := settlementQuarter.developmentQuarter
  let claimInfo : ClaimInfo :=
    { claimId := claim.staticCovariates.claimId
      accidentDate := claim.accident
      notifyDate := claim.notify
      settlementDate := claim.settlement
      accidentQuarter := accidentQuarter.quarterKey
      notifyQuarter := notifyQuarter.quarterKey
      notifyLag := notifyQuarter.developmentQuarter - accidentQuarter.developmentQuarter }
  if endDevQuarter < startDevQuarter ∨ endDevQuarter - startDevQuarter > 100 then
    { claimInfo := claimInfo, quarters := [] }
  else
    let quarters := (intRange startDevQuarter endDevQuarter).map
      (aggRecordFor sqrtFn claim observationEndDate priceIndexMap quarterlyPayments)
    let quarters :=
      if oneBasedDevQuarters then
        quarters.map (fun q => { q with developmentQuarter := q.developmentQuarter + 1 })
      else quarters
    { claimInfo := claimInfo, quarters := quarters }

/-- The fallback test of `aggregateClaimToQuarters` (invalid development
quarter range → minimal empty result). -/
def aggFallback (claim : Claim) : Prop :=
  (getQuarterInfo claim.settlement claim.accident).developmentQuarter <
      (getQuarterInfo claim.accident claim.accident).developmentQuarter ∨
    (getQuarterInfo claim.settlement claim.accident).developmentQuarter -
        (getQuarterInfo claim.accident claim.accident).developmentQuarter > 100

instance (claim : Claim) : Decidable (aggFallback claim) := by
  unfold aggFallback; infer_instance

-- ------------------------------------------------------------------
-- Outstanding-liability calculator (OutstandingLiabilityCalculation)
-- ------------------------------------------------------------------

/-- One quarterly record as consumed by the outstanding-liability component:
only the fields it reads.  Amounts are finite JS numbers, modelled as exact
rationals (the component's inputs come from the aggregation of finite
payments). -/
structure LiabQuarter where
  developmentQuarter : Int
  quarterKey : QKey
  nominalAmount : ℚ
  totalAmount : ℚ
  deriving DecidableEq, Repr

/-- JS truthiness of a possibly-absent finite number (`0`, `null` and
`undefined` are falsy). -/
def truthyQO : Option ℚ → Bool
  | none => false
  | some x => decide (x ≠ 0)

/-- JS `a || b` on possibly-absent numbers. -/
def jsOrQO (a b : Option ℚ) : Option ℚ :=
  if truthyQO a then a else b

/-- `q.nominalAmount || q.totalAmount`. -/
def nominalOrTotal (q : LiabQuarter) : ℚ :=
  if q.nominalAmount ≠ 0 then q.nominalAmount else q.totalAmount

/-- `priceIndexMap ? priceIndexMap[observationQuarterKey] : null`. -/
def targetPIOf (endDate accidentDate : CalDate)
    (priceIndexMap : Option (QKey → Option ℚ)) : Option ℚ :=
  match priceIndexMap with
  | some m => m (getQuarterInfo endDate accidentDate).quarterKey
  | none => none

/-- `midMap[k] || (priceIndexMap ? priceIndexMap[k] : null)` where
`midMap = midQuarterIndexMap || {}`. -/
def srcMidOf (midMap : QKey → Option ℚ) (priceIndexMap : Option (QKey → Option ℚ))
    (k : QKey) : Option ℚ :=
  jsOrQO (midMap k) (match priceIndexMap with | some m => m k | none => none)

/-- `(targetPI && srcMid) ? (targetPI / srcMid) : 1.0`. -/
def adjFactor (targetPI srcMid : Option ℚ) : ℚ :=
  if truthyQO targetPI && truthyQO srcMid then (targetPI.getD 0) / (srcMid.getD 0)
  else 1

/-- `(q.nominalAmount || q.totalAmount) * factor` for one record. -/
def adjustedThisQuarter (endDate accidentDate : CalDate)
    (priceIndexMap : Option (QKey → Option ℚ)) (midMap : QKey → Option ℚ)
    (q : LiabQuarter) : ℚ :=
  nominalOrTotal q *
    adjFactor (targetPIOf endDate accidentDate priceIndexMap)
      (srcMidOf midMap priceIndexMap q.quarterKey)

/-- `ultimateClaimSize`: the reduce over all records. -/
def ultimateClaimSize (endDate accidentDate : CalDate)
    (priceIndexMap : Option (QKey → Option ℚ)) (midMap : QKey → Option ℚ)
    (quarters : List LiabQuarter) : ℚ :=
  quarters.foldl
    (fun sum q => sum + adjustedThisQuarter endDate accidentDate priceIndexMap midMap q)
    0

/-- The running `cumulativeSum` value at each record, in record order. -/
def cumulativeList (f : LiabQuarter → ℚ) : List LiabQuarter → ℚ → List ℚ
  | [], _ => []
  | q :: rest, s => (s + f q) :: cumulativeList f rest (s + f q)

/-- `outstandingLiability = Math.max(0, ultimateClaimSize - cumulativeSum)`
at each record, in record order. -/
def outstandingList (endDate accidentDate : CalDate)
    (priceIndexMap : Option (QKey → Option ℚ)) (midMap : QKey → Option ℚ)
    (quarters : List LiabQuarter) : List ℚ :=
  (cumulativeList
      (adjustedThisQuarter endDate accidentDate priceIndexMap midMap) quarters 0).map
    (fun c =>
      max 0 (ultimateClaimSize endDate accidentDate priceIndexMap midMap quarters - c))

/-- Example liability records for the witness. -/
def liabQ1 : LiabQuarter := ⟨0, (2020, 1), 5, 5⟩

/-- Second example liability record. -/
def liabQ2 : LiabQuarter := ⟨1, (2020, 2), 7, 7⟩

-- ------------------------------------------------------------------
-- Training-row generation (DevelopmentPeriodGeneration)
-- ------------------------------------------------------------------

/-- `validNumRows = Math.max(0, maxObservableQuarter - notifyQuarter + 1)`
with `maxObservableQuarter = Math.min(settlementQuarter, observationQuarter)`,
all three development quarters taken relative to the accident date. -/
def validNumRows (notifyDate settlementDate accidentDate endDate : CalDate) : Int :=
  let notifyQuarter := (getQuarterInfo notifyDate accidentDate).developmentQuarter
  let settlementQuarter := (getQuarterInfo settlementDate accidentDate).developmentQuarter
  let observationQuarter := (getQuarterInfo endDate accidentDate).developmentQuarter
  let maxObservableQuarter := min settlementQuarter observationQuarter
  max 0 (maxObservableQuarter - notifyQuarter + 1)

/-- `Array.from({length: validNumRows}, (_, i) => notifyQuarter + i)`: the
development quarter of each generated training row, in emission order. -/
def trainingRowQuarters (notifyDate settlementDate accidentDate endDate : CalDate) :
    List Int :=
  (List.range (validNumRows notifyDate settlementDate accidentDate endDate).toNat).map
    (fun i : Nat =>
      (getQuarterInfo notifyDate accidentDate).developmentQuarter + (i : Int))

-- ------------------------------------------------------------------
-- Dataset split & censoring engine (ClaimsDiagram)
-- ------------------------------------------------------------------

/-- `clampDate(d, min, max)` on millisecond timestamps. -/
def clampDate (t minD maxD : Int) : Int := min (max t minD) maxD

/-- The clamp-and-sort normalization of the three cutoff inputs:
`[tCut, vCut, testCut].sort((a, b) => a - b)` after clamping each into
`[startDate, endDate]`. -/
def sortedCutoffs (trainCutStr valCutStr testCutStr startDate endDate : Int) :
    List Int :=
  let tCut := clampDate trainCutStr startDate endDate
  let vCut := clampDate valCutStr startDate endDate
  let teCut := clampDate testCutStr startDate endDate
  ([tCut, vCut, teCut]).insertionSort (· ≤ ·)

/-- The four partitions. -/
inductive Dataset where
  | train
  | val
  | test
  | post
  deriving DecidableEq, Repr

/-- `datasetForNotify` (also the body of `datasetForSettlement`): which
half-open interval the date falls in. -/
def datasetForDate (trainCut valCut testCut t : Int) : Dataset :=
  if t < trainCut then Dataset.train
  else if t < valCut then Dataset.val
  else if t < testCut then Dataset.test
  else Dataset.post

/-- A claim as consumed by the split engine (day-level timestamps). -/
structure SplitClaim where
  notify : Int
  settlement : Int
  deriving DecidableEq, Repr

/-- One entry of the `rows` array built by `buildRows`. -/
structure SplitRow where
  claim : SplitClaim
  dataset : Dataset
  isCensored : Bool
  observedEnd : Option Int
  isDuplicate : Bool
  hasDuplicate : Bool
  linkFrom : Option Nat
  leakUntil : Option Int
  deriving DecidableEq, Repr

/-- The per-partition cutoff date (default `testCut`, as in the source). -/
def cutoffFor (trainCut valCut testCut : Int) : Dataset → Int
  | Dataset.train => trainCut
  | Dataset.val => valCut
  | Dataset.test => testCut
  | Dataset.post => testCut

/-- The `hasDuplicate` decision for one claim in `notifyDup` mode: censored,
and the settlement falls into the next partition's interval. -/
def hasDuplicateFor (trainCut valCut testCut : Int) (c : SplitClaim) : Bool :=
  let notifyDataset := datasetForDate trainCut valCut testCut c.notify
  let cutoffDate := cutoffFor trainCut valCut testCut notifyDataset
  let isCensored : Bool := cutoffDate < c.settlement
  isCensored &&
    ((decide (notifyDataset = Dataset.train) && decide (trainCut ≤ c.settlement) &&
        decide (c.settlement < valCut)) ||
      (decide (notifyDataset = Dataset.val) && decide (valCut ≤ c.settlement) &&
        decide (c.settlement < testCut)))

/-- The one or two rows `buildRows` pushes for one claim in `notifyDup`
(leakage-duplication) mode; `primaryIdx` is the primary row's index. -/
def notifyDupRowsFor (trainCut valCut testCut : Int) (c : SplitClaim)
    (primaryIdx : Nat) : List SplitRow :=
  let notifyDataset := datasetForDate trainCut valCut testCut c.notify
  let cutoffDate := cutoffFor trainCut valCut testCut notifyDataset
  let isCensored : Bool := cutoffDate < c.settlement
  let hasDuplicate : Bool := hasDuplicateFor trainCut valCut testCut c
  let primary : SplitRow :=
    { claim := c
      dataset := notifyDataset
      isCensored := isCensored
      observedEnd := some cutoffDate
      isDuplicate := false
      hasDuplicate := hasDuplicate
      linkFrom := none
      leakUntil := none }
  if hasDuplicate then
    let dupDataset := if notifyDataset = Dataset.train then Dataset.val else Dataset.test
    let dupLeakUntil := if notifyDataset = Dataset.train then trainCut else valCut
    [primary,
      { claim := c
        dataset := dupDataset
        isCensored := false
        observedEnd := none
        isDuplicate := true
        hasDuplicate := false
        linkFrom := some primaryIdx
        leakUntil := some dupLeakUntil }]
  else [primary]

/-- `buildRows(localClaims, 'notifyDup')`. -/
def buildRowsNotifyDup (trainCut valCut testCut : Int) (claims : List SplitClaim) :
    List SplitRow :=
  claims.foldl
    (fun rows c => rows ++ notifyDupRowsFor trainCut valCut testCut c rows.length) []

/-- The duplicate row emitted into VAL for a censored TRAIN claim. -/
def valDupRow (trainCut : Int) (c : SplitClaim) (primaryIdx : Nat) : SplitRow :=
  { claim := c
    dataset := Dataset.val
    isCensored := false
    observedEnd := none
    isDuplicate := true
    hasDuplicate := false
    linkFrom := some primaryIdx
    leakUntil := some trainCut }

/-- The duplicate row emitted into TEST for a censored VAL claim. -/
def testDupRow (valCut : Int) (c : SplitClaim) (primaryIdx : Nat) : SplitRow :=
  { claim := c
    dataset := Dataset.test
    isCensored := false
    observedEnd := none
    isDuplicate := true
    hasDuplicate := false
    linkFrom := some primaryIdx
    leakUntil := some valCut }

-- ------------------------------------------------------------------
-- PRNG & seed hasher
-- ------------------------------------------------------------------

/-- One call of the `mulberry32` closure: the 32-bit counter advances by
`0x6D2B79F5`, is scrambled, and the scrambled value divided by `2^32` is
returned.  All JS bitwise steps are congruent to arithmetic mod `2^32`, so
the state is kept reduced. -/
def m32next (a : Nat) : ℚ × Nat :=
  let a2 := (a + 0x6D2B79F5) % 4294967296
  let t1 := (Nat.xor a2 (a2 >>> 15)) * (a2 ||| 1) % 4294967296
  let inner := (Nat.xor t1 (t1 >>> 7)) * (t1 ||| 61) % 4294967296
  let t2 := Nat.xor t1 ((t1 + inner) % 4294967296)
  let out := Nat.xor t2 (t2 >>> 14) % 4294967296
  (((out : ℚ) / 4294967296), a2)

/-- `hashStringToSeed`: FNV-1a over the string's UTF-16 code units. -/
def hashStringToSeed (codeUnits : List Nat) : Nat :=
  codeUnits.foldl (fun h c => (Nat.xor h c) * 16777619 % 4294967296) 2166136261

-- ------------------------------------------------------------------
-- Price index generator
-- ------------------------------------------------------------------

/-- Calendar quarters counted linearly (`year*4 + quarterIndex`); the order
of quarter-start dates agrees with this index. -/
def quarterIndexOf (d : CalDate) : Int :=
  d.year * 4 + (((d.month : Nat) / 3 : Nat) : Int)

/-- The `"YYYYQn"` key of a linear quarter index. -/
def qkeyOfQuarterIndex (qi : Int) : QKey :=
  (qi.ediv 4, qi.emod 4 + 1)

/-- The body of the `while (q <= lastQ)` loop of `generatePriceIndexSeries`:
per quarter, draw drift then noise, update the index with the floor at 60,
and emit the quarter's entry.  (JS decimal literals are modelled as exact
decimals.) -/
def genPriceIndexQuarters : Nat → Nat → ℚ → Int → List (QKey × ℚ)
  | 0, _, _, _ => []
  | fuel + 1, st, idx, qi =>
      let r1 := m32next st
      let drift := 13 / 1000 + r1.1 * (6 / 1000)
      let r2 := m32next r1.2
      let noise := (r2.1 - 1 / 2) * (8 / 1000)
      let newIdx := max 60 (idx * (1 + drift + noise))
      (qkeyOfQuarterIndex qi, newIdx) ::
        genPriceIndexQuarters fuel r2.2 newIdx (qi + 1)

/-- `generatePriceIndexSeries(startDate, endDate, seed)`: one entry per
calendar quarter from `startDate`'s quarter through `endDate`'s quarter,
starting from an index value of 100 *before* the first drift step.  (The
returned `map` object contains the same key/value pairs as the series, so
only the series is modelled.) -/
def generatePriceIndexSeries (startDate endDate : CalDate) (seed : Nat) :
    List (QKey × ℚ) :=
  let st0 := Nat.xor seed 0x9E3779B9 % 4294967296
  let qiStart := quarterIndexOf startDate
  let qiLast := quarterIndexOf endDate
  genPriceIndexQuarters (qiLast + 1 - qiStart).toNat st0 100 qiStart

-- ------------------------------------------------------------------
-- Synthetic claim generator (generateClaims)
-- ------------------------------------------------------------------

/-- `Math.round` (half-up, toward +∞ on ties). -/
def jsRound (x : ℚ) : Int := ⌊x + 1 / 2⌋

/-- `addDays` on millisecond timestamps. -/
def addDays (d days : Int) : Int := d + days * 86400000

/-- `daysBetween`. -/
def daysBetween (a b : Int) : Int := jsRound ((b - a : ℚ) / 86400000)

/-- Civil calendar from a day number (days since 1970-01-01, Gregorian),
returning (year, month 1–12, day); the standard era-based algorithm.  The
C++-style truncating division of the original is equal to floor division
here. -/
def civilFromDays (z0 : Int) : Int × Int × Int :=
  let z := z0 + 719468
  let era := z.ediv 146097
  let doe := z.emod 146097
  let yoe := (doe - doe.ediv 1460 + doe.ediv 36524 - doe.ediv 146096).ediv 365
  let y := yoe + era * 400
  let doy := doe - (365 * yoe + yoe.ediv 4 - yoe.ediv 100)
  let mp := (5 * doy + 2).ediv 153
  let d := doy - (153 * mp + 2).ediv 5 + 1
  let m := if mp < 10 then mp + 3 else mp - 9
  (if m ≤ 2 then y + 1 else y, m, d)

/-- `monthKeyUTC(d) = getUTCFullYear(d)*12 + getUTCMonth(d)`. -/
def monthKeyUTC (t : Int) : Int :=
  let c := civilFromDays (t.ediv 86400000)
  c.1 * 12 + (c.2.1 - 1)

/-- `String.padStart(4, '0')`. -/
def padStart4 (s : String) : String :=
  if s.length ≥ 4 then s
  else String.mk (List.replicate (4 - s.length) (Char.ofNat 48)) ++ s

/-- A generated payment (`amount` is the integer nominal amount 1–9, summed
exactly under monthly dedupe). -/
structure GPayment where
  date : Int
  amount : Int
  deriving DecidableEq, Repr

/-- A generated claim. -/
structure GClaim where
  accident : Int
  notify : Int
  settlement : Int
  partials : List Int
  payments : List GPayment
  staticCovariates : StaticCovariates
  deriving DecidableEq, Repr

/-- Parameters of `generateClaims`.  (The `observationEndDate` parameter of
the source is destructured but never used in the body, so it is omitted.) -/
structure GenParams where
  n : Nat
  startDate : Int
  endDate : Int
  minDurDays : Int
  maxDurDays : Int
  maxPartials : Nat
  dedupeMonthly : Bool
  deriving DecidableEq, Repr

/-- The labels of the PRNG draws, in consumption order. -/
inductive DrawTag where
  | accidentOffset
  | notifyDate
  | duration
  | paymentCount
  | paymentDate
  | paymentAmount
  | postcode
  | claimType
  | region
  deriving DecidableEq, Repr

/-- The static covariate option arrays. -/
def postcodesList : List String := ["2000", "3000", "4000", "5000", "6000", "7000", "1000"]

/-- Claim type options. -/
def claimTypesList : List String := ["Motor", "Property", "Liability", "Workers Comp"]

/-- Region options. -/
def regionsList : List String := ["Metro", "Regional", "Remote"]

/-- Merge same-calendar-month payments into the first-seen entry (summing
amounts, keeping the earliest date); payments arrive sorted. -/
def addDedup (acc : List GPayment) (p : GPayment) : List GPayment :=
  if acc.any (fun q => monthKeyUTC q.date = monthKeyUTC p.date) then
    acc.map (fun q =>
      if monthKeyUTC q.date = monthKeyUTC p.date then
        { q with amount := q.amount + p.amount }
      else q)
  else acc ++ [p]

/-- The `dedupeMonthly` pass. -/
def dedupeMonthlyPayments (ps : List GPayment) : List GPayment :=
  ps.foldl addDedup []

/-- The payment-generation loop: per payment, a date draw then an amount
draw.  Returns the payments in draw order, the draw tags, and the PRNG
state. -/
def genPayments (notify settlement : Int) : Nat → Nat → List GPayment × List DrawTag × Nat
  | 0, st => ([], [], st)
  | j + 1, st =>
      let spanDays := max 1 (daysBetween notify settlement)
      let r1 := m32next st
      let t := addDays notify ⌊r1.1 * (spanDays : ℚ)⌋
      let r2 := m32next r1.2
      let amount := 1 + ⌊r2.1 * 9⌋
      let rest := genPayments notify settlement j r2.2
      ({ date := t, amount := amount } :: rest.1,
        DrawTag.paymentDate :: DrawTag.paymentAmount :: rest.2.1,
        rest.2.2)

/-- One iteration of the claim-generation loop: the exact draw order of the
source is accident offset, notify date, duration, payment count, then per
payment a date and an amount, then postcode, claim type and region.  Returns
the claim, the draw tags in consumption order, and the PRNG state. -/
def genOneClaim (p : GenParams) (i : Nat) (st : Nat) :
    GClaim × List DrawTag × Nat :=
  let totalDays := max 1 (daysBetween p.startDate p.endDate)
  let latestNotify := max 0 (totalDays - p.minDurDays)
  let r1 := m32next st
  let accidentOffset := 7 + ⌊r1.1 * 54⌋
  let r2 := m32next r1.2
  let notify := addDays p.startDate ⌊r2.1 * (latestNotify : ℚ)⌋
  let accident := addDays notify (-accidentOffset)
  let r3 := m32next r2.2
  let dur := p.minDurDays + ⌊r3.1 * ((max 1 (p.maxDurDays - p.minDurDays + 1) : Int) : ℚ)⌋
  let rawSettlement := addDays notify dur
  let settlement := if p.endDate < rawSettlement then p.endDate else rawSettlement
  let r4 := m32next r3.2
  let kDrawn := (⌊r4.1 * ((p.maxPartials : ℚ) + 1)⌋).toNat
  let k := if daysBetween notify settlement < 2 then 0 else kDrawn
  let pay := genPayments notify settlement k r4.2
  let sorted := (pay.1.filter (fun q => notify < q.date ∧ q.date ≤ settlement)).insertionSort
    (fun a b => a.date ≤ b.date)
  let payments := if p.dedupeMonthly then dedupeMonthlyPayments sorted else sorted
  let partials := payments.map (·.date)
  let r5 := m32next pay.2.2
  let postcode := postcodesList.getD (⌊r5.1 * 7⌋).toNat ""
  let r6 := m32next r5.2
  let claimType := claimTypesList.getD (⌊r6.1 * 4⌋).toNat ""
  let r7 := m32next r6.2
  let region := regionsList.getD (⌊r7.1 * 3⌋).toNat ""
  ({ accident := accident
     notify := notify
     settlement := settlement
     partials := partials
     payments := payments
     staticCovariates :=
       { claimId := "CLM-" ++ padStart4 (toString (i + 1))
         postcode := postcode
         claimType := claimType
         region := region } },
    [DrawTag.accidentOffset, DrawTag.notifyDate, DrawTag.duration,
        DrawTag.paymentCount] ++ pay.2.1 ++
      [DrawTag.postcode, DrawTag.claimType, DrawTag.region],
    r7.2)

/-- The `for (let i = 0; i < n; i++)` loop of `generateClaims`. -/
def genClaimsLoop (p : GenParams) : Nat → Nat → Nat → List GClaim × List DrawTag
  | 0, _, _ => ([], [])
  | left + 1, i, st =>
      let c := genOneClaim p i st
      let rest := genClaimsLoop p left (i + 1) c.2.2
      (c.1 :: rest.1, c.2.1 ++ rest.2)

/-- `generateClaims`: run the loop from the seeded PRNG, then sort the claims
by notification date (stable sort, as in modern JS engines). -/
def generateClaims (p : GenParams) (seed : Nat) : List GClaim :=
  ((genClaimsLoop p p.n 0 seed).1).insertionSort (fun a b => a.notify ≤ b.notify)

/-- The full PRNG draw-tag trace of a `generateClaims` run. -/
def generateClaimsTrace (p : GenParams) (seed : Nat) : List DrawTag :=
  (genClaimsLoop p p.n 0 seed).2

/-- First independent run of string-seeded claim generation
(`hashStringToSeed` then `generateClaims`). -/
def generateClaimsRun1 (p : GenParams) (seedText : List Nat) : List GClaim :=
  generateClaims p (hashStringToSeed seedText)

/-- Second independent run of string-seeded claim generation, defined
separately from the first. -/
def generateClaimsRun2 (p : GenParams) (seedText : List Nat) : List GClaim :=
  generateClaims p (hashStringToSeed seedText)

/-- Example generator parameters. -/
def genParamsEx : GenParams :=
  { n := 1
    startDate := 0
    endDate := 31536000000
    minDurDays := 30
    maxDurDays := 60
    maxPartials := 2
    dedupeMonthly := true }

-- ------------------------------------------------------------------
-- Concrete example inputs used by witnesses and counterexamples
-- ------------------------------------------------------------------

/-- Rational square root used for concrete evaluations; correct on the only
value it is applied to there (16). -/
def sqrtEx : ℚ → ℚ := fun q => if q = 16 then 4 else 0

/-- Example covariates. -/
def covEx : StaticCovariates :=
  { claimId := "CLM-0001", postcode := "2000", claimType := "Motor", region := "Metro" }

/-- Example claim: accident 2020Q1, payment of 5 in 2020Q2, settlement 2020Q3. -/
def claimEx : Claim :=
  { accident := ⟨2020, 0⟩
    notify := ⟨2020, 1⟩
    settlement := ⟨2020, 7⟩
    staticCovariates := covEx
    payments := [{ date := ⟨2020, 4⟩, amount := JSNum.fin 5 }] }

/-- Counterexample claim for the nominal-sum property: the settlement lies 53
quarters after the accident, so the development-quarter clamp at 50 merges the
two payment quarters (raw offsets 50 and 52) onto the same clamped offset. -/
def claimSpan53 : Claim :=
  { accident := ⟨2020, 0⟩
    notify := ⟨2020, 1⟩
    settlement := ⟨2033, 4⟩
    staticCovariates := covEx
    payments := [{ date := ⟨2032, 6⟩, amount := JSNum.fin 5 },
                 { date := ⟨2033, 0⟩, amount := JSNum.fin 7 }] }

/-- Observation end date 2020-08 (2020Q3) for the adjustment examples. -/
def obsEx : CalDate := ⟨2020, 7⟩

/-- Price index map whose entry for the observation quarter 2020Q3 is
`+Infinity` (a JS number an external caller can supply). -/
def pimInf : PIMap :=
  [((2020, 1), JSNum.fin 4), ((2020, 2), JSNum.fin 4), ((2020, 3), JSNum.inf)]

/-- Price index map with no entry for the observation quarter 2020Q3. -/
def pimMissing : PIMap :=
  [((2020, 1), JSNum.fin 4), ((2020, 2), JSNum.fin 4)]

/-- The price-index annotation the aggregation produces for `claimEx`'s
payment quarter when the observation quarter is missing from `pimMissing`. -/
def pxEx8 : PriceIndexInfo :=
  { targetQuarterKey := (2020, 3)
    targetPI := none
    sourceQuarterKey := (2020, 2)
    sourceMidPI := some (JSNum.fin 4)
    factor := JSNum.fin 1 }

/-- The record the aggregation produces for `claimEx`'s payment quarter when
the observation quarter is missing from `pimMissing`. -/
def recEx8 : QuarterRecord :=
  { calendarYear := 2020
    calendarQuarter := 2
    developmentQuarter := 1
    quarterKey := (2020, 2)
    totalAmount := JSNum.fin 5
    nominalAmount := JSNum.fin 5
    paymentCount := 1
    payments := [{ date := ⟨2020, 4⟩, amount := JSNum.fin 5 }]
    inflationAdjusted := true
    priceIndex := some pxEx8 }

-- ------------------------------------------------------------------
-- Generic facts about `intRange` and the bucket map
-- ------------------------------------------------------------------

theorem mem_intRange {a b x : Int} : x ∈ intRange a b ↔ a ≤ x ∧ x ≤ b := by
  unfold intRange
  constructor
  · intro hx
    obtain ⟨i, hi, hx⟩ := List.mem_map.mp hx
    have hi' := List.mem_range.mp hi
    omega
  · intro ⟨h1, h2⟩
    refine List.mem_map.mpr ⟨(x - a).toNat, List.mem_range.mpr (by omega), by omega⟩

theorem nodup_intRange (a b : Int) : (intRange a b).Nodup := by
  unfold intRange
  exact (List.nodup_range _).map (fun i j h => by omega)

/-- Every bucket in the payment map carries the `QuarterInfo` of one of the
processed payments. -/
theorem mem_addToBuckets_info {acc : CalDate} {bs : List Bucket} {p : Payment} {b : Bucket}
    (hb : b ∈ addToBuckets acc bs p) :
    (∃ b₀ ∈ bs, b.info = b₀.info) ∨ b.info = getQuarterInfo p.date acc := by
  induction bs with
  | nil =>
      simp only [addToBuckets, List.mem_singleton] at hb
      subst hb
      exact Or.inr rfl
  | cons b₀ rest ih =>
      simp only [addToBuckets] at hb
      by_cases hk : b₀.info.quarterKey = (getQuarterInfo p.date acc).quarterKey
      · rw [if_pos hk] at hb
        rcases List.mem_cons.mp hb with h | h
        · subst h
          exact Or.inl ⟨b₀, List.mem_cons_self _ _, rfl⟩
        · exact Or.inl ⟨b, List.mem_cons_of_mem _ h, rfl⟩
      · rw [if_neg hk] at hb
        rcases List.mem_cons.mp hb with h | h
        · subst h
          exact Or.inl ⟨b, List.mem_cons_self _ _, rfl⟩
        · rcases ih h with ⟨b₁, hb₁, he⟩ | he
          · exact Or.inl ⟨b₁, List.mem_cons_of_mem _ hb₁, he⟩
          · exact Or.inr he

theorem mem_foldl_addToBuckets_info {acc : CalDate} :
    ∀ (ps : List Payment) (bs : List Bucket) (b : Bucket),
      b ∈ ps.foldl (addToBuckets acc) bs →
      (∃ b₀ ∈ bs, b.info = b₀.info) ∨ ∃ p ∈ ps, b.info = getQuarterInfo p.date acc := by
  intro ps
  induction ps with
  | nil =>
      intro bs b hb
      exact Or.inl ⟨b, hb, rfl⟩
  | cons p ps ih =>
      intro bs b hb
      rw [List.foldl_cons] at hb
      rcases ih _ b hb with ⟨b₀, hb₀, he⟩ | ⟨p', hp', he⟩
      · rcases mem_addToBuckets_info hb₀ with ⟨b₁, hb₁, he'⟩ | he'
        · exact Or.inl ⟨b₁, hb₁, he.trans he'⟩
        · exact Or.inr ⟨p, List.mem_cons_self _ _, he.trans he'⟩
      · exact Or.inr ⟨p', List.mem_cons_of_mem _ hp', he⟩

/-- Buckets built from an empty map all stem from actual payments. -/
theorem bucket_info_from_payment {acc : CalDate} {ps : List Payment} {b : Bucket}
    (hb : b ∈ ps.foldl (addToBuckets acc) []) :
    ∃ p ∈ ps, b.info = getQuarterInfo p.date acc := by
  rcases mem_foldl_addToBuckets_info ps [] b hb with ⟨b₀, hb₀, _⟩ | h
  · simp at hb₀
  · exact h

theorem aggRecordFor_developmentQuarter (sqrtFn : ℚ → ℚ) (claim : Claim)
    (obs : Option CalDate) (pim : Option PIMap) (buckets : List Bucket) (d : Int) :
    (aggRecordFor sqrtFn claim obs pim buckets d).developmentQuarter = d := by
  unfold aggRecordFor
  cases hfind : buckets.find? (fun q => q.info.developmentQuarter = d) with
  | none => simp [emptyRecordFor]
  | some b =>
      have hd := List.find?_some hfind
      simp only [decide_eq_true_eq] at hd
      cases obs <;> simp [adjustedRecordFor, plainRecordFor, hd]

/-- Unfolding of the non-fallback path of the aggregation. -/
theorem aggregate_quarters_eq (sqrtFn : ℚ → ℚ) (claim : Claim)
    (obs : Option CalDate) (pim : Option PIMap)
    (h : ¬ aggFallback claim) :
    (aggregateClaimToQuarters sqrtFn claim false obs pim).quarters =
      (intRange (getQuarterInfo claim.accident claim.accident).developmentQuarter
          (getQuarterInfo claim.settlement claim.accident).developmentQuarter).map
        (aggRecordFor sqrtFn claim obs pim
          (claim.payments.foldl (addToBuckets claim.accident) [])) := by
  unfold aggregateClaimToQuarters
  unfold aggFallback at h
  simp only [if_neg h, Bool.false_eq_true, if_false]

/-- **C2.** For a claim whose aggregation does not take the minimal/empty
fallback, the quarterly records carry exactly the contiguous development
quarters `[accidentDevQ, settlementDevQ]` in increasing order with no gaps,
and a development quarter in which the claim has no payment appears as an
explicit all-zero record rather than being omitted. -/
theorem aggregate_quarter_range_contiguous (sqrtFn : ℚ → ℚ) (claim : Claim)
    (obs : Option CalDate) (pim : Option PIMap)
    (h : ¬ aggFallback claim) :
    ((aggregateClaimToQuarters sqrtFn claim false obs pim).quarters.map
        (·.developmentQuarter)) =
      intRange (getQuarterInfo claim.accident claim.accident).developmentQuarter
        (getQuarterInfo claim.settlement claim.accident).developmentQuarter ∧
    ∀ r ∈ (aggregateClaimToQuarters sqrtFn claim false obs pim).quarters,
      (∀ p ∈ claim.payments,
          (getQuarterInfo p.date claim.accident).developmentQuarter ≠
            r.developmentQuarter) →
      r.totalAmount = JSNum.fin 0 ∧ r.nominalAmount = JSNum.fin 0 ∧
        r.paymentCount = 0 ∧ r.payments = [] := by
  rw [aggregate_quarters_eq sqrtFn claim obs pim h]
  constructor
  · rw [List.map_map]
    have hcongr : ∀ d ∈ intRange
        (getQuarterInfo claim.accident claim.accident).developmentQuarter
        (getQuarterInfo claim.settlement claim.accident).developmentQuarter,
        ((fun r : QuarterRecord => r.developmentQuarter) ∘
          aggRecordFor sqrtFn claim obs pim
            (claim.payments.foldl (addToBuckets claim.accident) [])) d = id d :=
      fun d _ => aggRecordFor_developmentQuarter sqrtFn claim obs pim _ d
    rw [List.map_congr_left hcongr, List.map_id]
  · intro r hr hnone
    obtain ⟨d, hd, rfl⟩ := List.mem_map.mp hr
    cases hfind : (claim.payments.foldl (addToBuckets claim.accident) []).find?
        (fun q => q.info.developmentQuarter = d) with
    | some b =>
        exfalso
        have hb : b ∈ claim.payments.foldl (addToBuckets claim.accident) [] :=
          List.mem_of_find?_eq_some hfind
        obtain ⟨p, hp, hinfo⟩ := bucket_info_from_payment hb
        have hd' := List.find?_some hfind
        simp only [decide_eq_true_eq] at hd'
        exact hnone p hp (by
          rw [aggRecordFor_developmentQuarter, ← hd', hinfo])
    | none =>
        unfold aggRecordFor
        rw [hfind]
        exact ⟨rfl, rfl, rfl, rfl⟩

-- ------------------------------------------------------------------
-- Conservation of nominal amounts (C3)
-- ------------------------------------------------------------------

theorem sum_addToBuckets (acc : CalDate) (bs : List Bucket) (p : Payment) :
    ((addToBuckets acc bs p).map (·.totalAmount)).sum =
      (bs.map (·.totalAmount)).sum + p.amount := by
  induction bs with
  | nil =>
      simp only [addToBuckets, List.map_cons, List.map_nil, List.sum_cons, List.sum_nil]
      rw [← JSNum.add_def, add_zero, zero_add, ← JSNum.zero_def, zero_add]
  | cons b rest ih =>
      simp only [addToBuckets]
      by_cases hk : b.info.quarterKey = (getQuarterInfo p.date acc).quarterKey
      · rw [if_pos hk]
        simp only [List.map_cons, List.sum_cons]
        rw [← JSNum.add_def, add_right_comm]
      · rw [if_neg hk]
        simp only [List.map_cons, List.sum_cons, ih, add_assoc]

theorem sum_foldl_addToBuckets (acc : CalDate) :
    ∀ (ps : List Payment) (bs : List Bucket),
      ((ps.foldl (addToBuckets acc) bs).map (·.totalAmount)).sum =
        (bs.map (·.totalAmount)).sum + (ps.map (·.amount)).sum := by
  intro ps
  induction ps with
  | nil => intro bs; simp
  | cons p ps ih =>
      intro bs
      rw [List.foldl_cons, ih, sum_addToBuckets]
      simp only [List.map_cons, List.sum_cons]
      rw [add_assoc, add_comm p.amount]

theorem keys_addToBuckets (acc : CalDate) (bs : List Bucket) (p : Payment) :
    (addToBuckets acc bs p).map (·.info.quarterKey) =
      if (getQuarterInfo p.date acc).quarterKey ∈ bs.map (·.info.quarterKey) then
        bs.map (·.info.quarterKey)
      else bs.map (·.info.quarterKey) ++ [(getQuarterInfo p.date acc).quarterKey] := by
  induction bs with
  | nil => simp [addToBuckets]
  | cons b rest ih =>
      simp only [addToBuckets]
      by_cases hk : b.info.quarterKey = (getQuarterInfo p.date acc).quarterKey
      · rw [if_pos hk]
        have hmem : (getQuarterInfo p.date acc).quarterKey ∈
            (b :: rest).map (·.info.quarterKey) := by
          simp [← hk]
        rw [if_pos hmem]
        simp
      · rw [if_neg hk]
        simp only [List.map_cons, ih]
        by_cases hmem : (getQuarterInfo p.date acc).quarterKey ∈
            rest.map (·.info.quarterKey)
        · rw [if_pos hmem, if_pos (by simp [hmem])]
        · rw [if_neg hmem, if_neg (by
            simp only [List.map_cons, List.mem_cons]
            push_neg
            exact ⟨fun h => hk h.symm, hmem⟩)]
          simp

theorem nodup_keys_foldl_addToBuckets (acc : CalDate) :
    ∀ (ps : List Payment) (bs : List Bucket),
      ((bs.map (·.info.quarterKey)).Nodup) →
      (((ps.foldl (addToBuckets acc) bs).map (·.info.quarterKey)).Nodup) := by
  intro ps
  induction ps with
  | nil => intro bs h; exact h
  | cons p ps ih =>
      intro bs h
      rw [List.foldl_cons]
      apply ih
      rw [keys_addToBuckets]
      by_cases hmem : (getQuarterInfo p.date acc).quarterKey ∈ bs.map (·.info.quarterKey)
      · rw [if_pos hmem]; exact h
      · rw [if_neg hmem]
        simp [List.nodup_append, h, hmem]

/-- With pairwise-distinct development quarters, the walk's `find?` recovers
each bucket itself. -/
theorem find?_dev_eq_self :
    ∀ (bs : List Bucket),
      ((bs.map (·.info.developmentQuarter)).Nodup) →
      ∀ b ∈ bs,
        bs.find? (fun q => q.info.developmentQuarter = b.info.developmentQuarter) =
          some b := by
  intro bs
  induction bs with
  | nil => intro _ b hb; cases hb
  | cons b₀ rest ih =>
      intro hnd b hb
      rw [List.map_cons] at hnd
      have hnd' := List.nodup_cons.mp hnd
      rcases List.mem_cons.mp hb with rfl | hb'
      · rw [List.find?_cons_of_pos _ (by simp)]
      · have hbdev : b.info.developmentQuarter ∈
            rest.map (·.info.developmentQuarter) := List.mem_map_of_mem _ hb'
        have hne : b₀.info.developmentQuarter ≠ b.info.developmentQuarter :=
          fun h => hnd'.1 (h ▸ hbdev)
        rw [List.find?_cons_of_neg _ (by simpa using hne)]
        exact ih hnd'.2 b hb'

theorem sum_map_ite_eq {α M : Type} [DecidableEq α] [AddCommMonoid M] :
    ∀ (l : List α) (x : α) (f : α → M) (v : M),
      l.Nodup → x ∈ l → f x = 0 →
      (l.map (fun d => if d = x then v else f d)).sum = v + (l.map f).sum := by
  intro l
  induction l with
  | nil => intro x f v _ hx; cases hx
  | cons y rest ih =>
      intro x f v hnd hx hfx
      have hnd' := List.nodup_cons.mp hnd
      rcases List.mem_cons.mp hx with rfl | hx'
      · simp only [List.map_cons, List.sum_cons, if_pos rfl]
        have hrw : rest.map (fun d => if d = x then v else f d) = rest.map f :=
          List.map_congr_left (fun d hd => by
            have hne : d ≠ x := fun h => hnd'.1 (h ▸ hd)
            rw [if_neg hne])
        rw [hrw, hfx, zero_add]
        simp
      · have hne : y ≠ x := fun h => hnd'.1 (h ▸ hx')
        simp only [List.map_cons, List.sum_cons, if_neg hne]
        rw [ih x f v hnd'.2 hx' hfx, add_left_comm]

/-- Summing the walk's per-quarter lookups over the full range recovers the
sum of all bucket totals. -/
theorem sum_range_find (s e : Int) :
    ∀ (bs : List Bucket),
      ((bs.map (·.info.developmentQuarter)).Nodup) →
      (∀ b ∈ bs, s ≤ b.info.developmentQuarter ∧ b.info.developmentQuarter ≤ e) →
      ((intRange s e).map (fun d =>
          ((bs.find? (fun q => q.info.developmentQuarter = d)).map
            (·.totalAmount)).getD (JSNum.fin 0))).sum =
        (bs.map (·.totalAmount)).sum := by
  intro bs
  induction bs with
  | nil =>
      intro _ _
      simp only [List.find?_nil, Option.map_none', Option.getD_none, List.map_nil,
        List.sum_nil]
      exact List.sum_eq_zero (by
        intro x hx
        obtain ⟨d, _, rfl⟩ := List.mem_map.mp hx
        rfl)
  | cons b rest ih =>
      intro hnd hbnd
      rw [List.map_cons] at hnd
      have hnd' := List.nodup_cons.mp hnd
      have hmem : b.info.developmentQuarter ∈ intRange s e :=
        mem_intRange.mpr (hbnd b (List.mem_cons_self _ _))
      have hpt : ∀ d ∈ intRange s e,
          (((b :: rest).find? (fun q => q.info.developmentQuarter = d)).map
            (·.totalAmount)).getD (JSNum.fin 0) =
          if d = b.info.developmentQuarter then b.totalAmount
          else ((rest.find? (fun q => q.info.developmentQuarter = d)).map
            (·.totalAmount)).getD (JSNum.fin 0) := by
        intro d _
        by_cases hd : d = b.info.developmentQuarter
        · subst hd
          rw [List.find?_cons_of_pos _ (by simp), if_pos rfl]
          rfl
        · rw [List.find?_cons_of_neg _ (by simpa using fun h => hd h.symm), if_neg hd]
      rw [List.map_congr_left hpt]
      have hf0 : ((rest.find?
          (fun q => q.info.developmentQuarter = b.info.developmentQuarter)).map
            (·.totalAmount)).getD (JSNum.fin 0) = 0 := by
        have hnone : rest.find?
            (fun q => q.info.developmentQuarter = b.info.developmentQuarter) = none := by
          rw [List.find?_eq_none]
          intro q hq
          simp only [decide_eq_true_eq]
          exact fun hEq => hnd'.1 (hEq ▸ List.mem_map_of_mem _ hq)
        rw [hnone]; rfl
      rw [sum_map_ite_eq (intRange s e) _ _ _ (nodup_intRange s e) hmem hf0]
      rw [ih hnd'.2 (fun b' hb' => hbnd b' (List.mem_cons_of_mem _ hb'))]
      simp

theorem getQuarterInfo_quarterKey (d r : CalDate) :
    (getQuarterInfo d r).quarterKey =
      (d.year, (((d.month : Nat) / 3 : Nat) : Int) + 1) := rfl

theorem rawDevQuarter_self (d : CalDate) : rawDevQuarter d d = 0 := by
  unfold rawDevQuarter; omega

theorem startDev_eq_zero (c : Claim) :
    (getQuarterInfo c.accident c.accident).developmentQuarter = 0 := by
  rw [getQuarterInfo_developmentQuarter, rawDevQuarter_self]
  decide

theorem aggRecordFor_nominalAmount (sqrtFn : ℚ → ℚ) (claim : Claim)
    (obs : Option CalDate) (pim : Option PIMap) (buckets : List Bucket) (d : Int) :
    (aggRecordFor sqrtFn claim obs pim buckets d).nominalAmount =
      ((buckets.find? (fun q => q.info.developmentQuarter = d)).map
        (·.totalAmount)).getD (JSNum.fin 0) := by
  unfold aggRecordFor
  cases buckets.find? (fun q => q.info.developmentQuarter = d) with
  | none => rfl
  | some b => cases obs <;> rfl

/-- The one-based relabelling only changes `developmentQuarter`; the nominal
amounts are untouched. -/
theorem aggregate_nominal_map_flag (sqrtFn : ℚ → ℚ) (claim : Claim) (flag : Bool)
    (obs : Option CalDate) (pim : Option PIMap) :
    ((aggregateClaimToQuarters sqrtFn claim flag obs pim).quarters.map
        (·.nominalAmount)) =
      ((aggregateClaimToQuarters sqrtFn claim false obs pim).quarters.map
        (·.nominalAmount)) := by
  cases flag with
  | false => rfl
  | true =>
      unfold aggregateClaimToQuarters
      by_cases hc : ((getQuarterInfo claim.settlement claim.accident).developmentQuarter <
            (getQuarterInfo claim.accident claim.accident).developmentQuarter ∨
          (getQuarterInfo claim.settlement claim.accident).developmentQuarter -
              (getQuarterInfo claim.accident claim.accident).developmentQuarter > 100)
      · simp only [if_pos hc]
      · simp only [if_neg hc]
        simp only [Bool.false_eq_true, if_false, if_true, List.map_map]
        exact List.map_congr_left (fun d _ => rfl)

/-- Pairwise-distinct quarter keys plus key-determined development quarters
give pairwise-distinct development quarters. -/
theorem nodup_dev_of_key :
    ∀ (bs : List Bucket),
      ((bs.map (·.info.quarterKey)).Nodup) →
      (∀ b1 ∈ bs, ∀ b2 ∈ bs,
        b1.info.developmentQuarter = b2.info.developmentQuarter →
        b1.info.quarterKey = b2.info.quarterKey) →
      ((bs.map (·.info.developmentQuarter)).Nodup) := by
  intro bs
  induction bs with
  | nil => intro _ _; simp
  | cons b rest ih =>
      intro hkeys hdet
      rw [List.map_cons] at hkeys ⊢
      have hkeys' := List.nodup_cons.mp hkeys
      refine List.nodup_cons.mpr ⟨?_, ?_⟩
      · intro hmem
        obtain ⟨b', hb', hdev⟩ := List.mem_map.mp hmem
        have hk := hdet b' (List.mem_cons_of_mem _ hb') b (List.mem_cons_self _ _) hdev
        exact hkeys'.1 (hk ▸ List.mem_map_of_mem _ hb')
      · exact ih hkeys'.2 (fun b1 hb1 b2 hb2 =>
          hdet b1 (List.mem_cons_of_mem _ hb1) b2 (List.mem_cons_of_mem _ hb2))

/-- **C3 (amended).** For a claim whose aggregation does not take the
fallback, whose payments all fall in calendar quarters between the accident
quarter and the settlement quarter, and whose settlement lies at most 50
development quarters after the accident quarter (so the `[-50, 50]` clamp is
inactive), the sum of `nominalAmount` over the quarterly records equals the
sum of the claim's payment amounts, with or without inflation adjustment. -/
theorem aggregate_nominal_sum_eq_payment_sum (sqrtFn : ℚ → ℚ) (claim : Claim)
    (flag : Bool) (obs : Option CalDate) (pim : Option PIMap)
    (h : ¬ aggFallback claim)
    (hpay : ∀ p ∈ claim.payments,
      0 ≤ rawDevQuarter p.date claim.accident ∧
        rawDevQuarter p.date claim.accident ≤
          rawDevQuarter claim.settlement claim.accident)
    (hspan : rawDevQuarter claim.settlement claim.accident ≤ 50) :
    ((aggregateClaimToQuarters sqrtFn claim flag obs pim).quarters.map
        (·.nominalAmount)).sum =
      (claim.payments.map (·.amount)).sum := by
  rw [aggregate_nominal_map_flag, aggregate_quarters_eq sqrtFn claim obs pim h,
    List.map_map]
  have hstart : (getQuarterInfo claim.accident claim.accident).developmentQuarter = 0 :=
    startDev_eq_zero claim
  have hraw0 : 0 ≤ rawDevQuarter claim.settlement claim.accident := by
    unfold aggFallback at h
    push_neg at h
    have h1 := h.1
    rw [hstart, getQuarterInfo_developmentQuarter] at h1
    omega
  have hend : (getQuarterInfo claim.settlement claim.accident).developmentQuarter =
      rawDevQuarter claim.settlement claim.accident := by
    rw [getQuarterInfo_developmentQuarter]
    omega
  have hbmem : ∀ b ∈ claim.payments.foldl (addToBuckets claim.accident) [],
      ∃ p ∈ claim.payments, b.info = getQuarterInfo p.date claim.accident :=
    fun _ hb => bucket_info_from_payment hb
  have hbound : ∀ b ∈ claim.payments.foldl (addToBuckets claim.accident) [],
      0 ≤ b.info.developmentQuarter ∧
        b.info.developmentQuarter ≤ rawDevQuarter claim.settlement claim.accident := by
    intro b hb
    obtain ⟨p, hp, hinfo⟩ := hbmem b hb
    have hpq := hpay p hp
    rw [hinfo, getQuarterInfo_developmentQuarter]
    omega
  have hkeys : ((claim.payments.foldl (addToBuckets claim.accident) []).map
      (·.info.quarterKey)).Nodup :=
    nodup_keys_foldl_addToBuckets claim.accident claim.payments [] (by simp)
  have hdet : ∀ b1 ∈ claim.payments.foldl (addToBuckets claim.accident) [],
      ∀ b2 ∈ claim.payments.foldl (addToBuckets claim.accident) [],
      b1.info.developmentQuarter = b2.info.developmentQuarter →
      b1.info.quarterKey = b2.info.quarterKey := by
    intro b1 hb1 b2 hb2 hdev
    obtain ⟨p1, hp1, hi1⟩ := hbmem b1 hb1
    obtain ⟨p2, hp2, hi2⟩ := hbmem b2 hb2
    have h1 := hpay p1 hp1
    have h2 := hpay p2 hp2
    have hm1 : (p1.date.month : Nat) < 12 := p1.date.month.isLt
    have hm2 : (p2.date.month : Nat) < 12 := p2.date.month.isLt
    rw [hi1, hi2, getQuarterInfo_developmentQuarter, getQuarterInfo_developmentQuarter]
      at hdev
    rw [hi1, hi2, getQuarterInfo_quarterKey, getQuarterInfo_quarterKey]
    unfold rawDevQuarter at hdev h1 h2 hspan
    have hy : p1.date.year = p2.date.year ∧
        ((p1.date.month : Nat) / 3 : Nat) = ((p2.date.month : Nat) / 3 : Nat) := by
      constructor <;> omega
    rw [hy.1, hy.2]
  have hnodupdev := nodup_dev_of_key _ hkeys hdet
  have hmapped : ∀ d ∈ intRange
      (getQuarterInfo claim.accident claim.accident).developmentQuarter
      (getQuarterInfo claim.settlement claim.accident).developmentQuarter,
      ((fun r : QuarterRecord => r.nominalAmount) ∘
        aggRecordFor sqrtFn claim obs pim
          (claim.payments.foldl (addToBuckets claim.accident) [])) d =
      (((claim.payments.foldl (addToBuckets claim.accident) []).find?
          (fun q => q.info.developmentQuarter = d)).map (·.totalAmount)).getD
        (JSNum.fin 0) :=
    fun d _ => aggRecordFor_nominalAmount sqrtFn claim obs pim _ d
  rw [List.map_congr_left hmapped, hstart, hend,
    sum_range_find 0 (rawDevQuarter claim.settlement claim.accident) _ hnodupdev hbound,
    sum_foldl_addToBuckets]
  simp

/-- Witness for `aggregate_nominal_sum_eq_payment_sum` at a concrete claim. -/
theorem aggregate_nominal_sum_eq_payment_sum_witness :
    ((aggregateClaimToQuarters sqrtEx claimEx false none none).quarters.map
        (·.nominalAmount)).sum =
      (claimEx.payments.map (·.amount)).sum :=
  aggregate_nominal_sum_eq_payment_sum sqrtEx claimEx false none none
    (by decide) (by decide) (by decide)

/-- **C3 counterexample.**  The claim as stated fails on `claimSpan53`: its
aggregation does not take the fallback, yet the clamped development quarters
of its two payment quarters collide at 50, so the second bucket is never
found by the walk and its amount is dropped from the nominal sums. -/
theorem aggregate_nominal_sum_counterexample :
    ¬ aggFallback claimSpan53 ∧
    ((aggregateClaimToQuarters sqrtEx claimSpan53 false none none).quarters.map
        (·.nominalAmount)).sum ≠
      (claimSpan53.payments.map (·.amount)).sum := by
  constructor
  · decide
  · with_unfolding_all decide

-- ------------------------------------------------------------------
-- Inflation-adjustment factor guards (C8)
-- ------------------------------------------------------------------

/-- Every produced record's amounts and price-index annotation agree with one
of the per-quarter records of the walk (the one-based relabelling only
touches `developmentQuarter`). -/
theorem mem_aggregate_quarters_shape (sqrtFn : ℚ → ℚ) (claim : Claim) (flag : Bool)
    (obs : Option CalDate) (pim : Option PIMap) (r : QuarterRecord)
    (hr : r ∈ (aggregateClaimToQuarters sqrtFn claim flag obs pim).quarters) :
    ∃ d : Int,
      r.priceIndex = (aggRecordFor sqrtFn claim obs pim
          (claim.payments.foldl (addToBuckets claim.accident) []) d).priceIndex ∧
      r.totalAmount = (aggRecordFor sqrtFn claim obs pim
          (claim.payments.foldl (addToBuckets claim.accident) []) d).totalAmount ∧
      r.nominalAmount = (aggRecordFor sqrtFn claim obs pim
          (claim.payments.foldl (addToBuckets claim.accident) []) d).nominalAmount := by
  unfold aggregateClaimToQuarters at hr
  by_cases hc : ((getQuarterInfo claim.settlement claim.accident).developmentQuarter <
        (getQuarterInfo claim.accident claim.accident).developmentQuarter ∨
      (getQuarterInfo claim.settlement claim.accident).developmentQuarter -
          (getQuarterInfo claim.accident claim.accident).developmentQuarter > 100)
  · rw [if_pos hc] at hr
    cases hr
  · rw [if_neg hc] at hr
    cases flag with
    | false =>
        simp only [Bool.false_eq_true, if_false] at hr
        obtain ⟨d, _, rfl⟩ := List.mem_map.mp hr
        exact ⟨d, rfl, rfl, rfl⟩
    | true =>
        simp only [if_true] at hr
        rw [List.map_map] at hr
        obtain ⟨d, _, rfl⟩ := List.mem_map.mp hr
        exact ⟨d, rfl, rfl, rfl⟩

/-- Core guard computation on the factor/safe-amount pair. -/
theorem factor_guard_core (t s : Option JSNum) (nominal : JSNum)
    (hguard : JSNum.truthyO t = false ∨ JSNum.truthyO s = false ∨
      (if JSNum.truthyO t && JSNum.truthyO s then
          JSNum.div (t.getD (JSNum.fin 0)) (s.getD (JSNum.fin 0))
        else JSNum.fin 1).isNaN = true) :
    (if (if JSNum.truthyO t && JSNum.truthyO s then
          JSNum.div (t.getD (JSNum.fin 0)) (s.getD (JSNum.fin 0))
        else JSNum.fin 1).isNaN then nominal
      else JSNum.mul nominal
        (if JSNum.truthyO t && JSNum.truthyO s then
          JSNum.div (t.getD (JSNum.fin 0)) (s.getD (JSNum.fin 0))
        else JSNum.fin 1)) = nominal ∧
    ((JSNum.truthyO t && JSNum.truthyO s) = false →
      (if JSNum.truthyO t && JSNum.truthyO s then
          JSNum.div (t.getD (JSNum.fin 0)) (s.getD (JSNum.fin 0))
        else JSNum.fin 1) = JSNum.fin 1) := by
  by_cases hcond : (JSNum.truthyO t && JSNum.truthyO s) = true
  · refine ⟨?_, fun hfalse => absurd hcond (by simp [hfalse])⟩
    rcases hguard with hg | hg | hg
    · exact absurd hcond (by
        simp only [Bool.and_eq_true]
        intro hc
        simp [hc.1] at hg)
    · exact absurd hcond (by
        simp only [Bool.and_eq_true]
        intro hc
        simp [hc.2] at hg)
    · rw [if_pos hg]
  · have hfac : (if JSNum.truthyO t && JSNum.truthyO s then
        JSNum.div (t.getD (JSNum.fin 0)) (s.getD (JSNum.fin 0))
      else JSNum.fin 1) = JSNum.fin 1 := if_neg (by simpa using hcond)
    refine ⟨?_, fun _ => hfac⟩
    rw [hfac]
    simp only [JSNum.isNaN, Bool.false_eq_true, if_false]
    exact JSNum.mul_one' _

/-- Guard statement on the adjusted-record builder. -/
theorem adjustedRecordFor_factor_guard (sqrtFn : ℚ → ℚ) (claim : Claim)
    (o : CalDate) (pim : Option PIMap) (e : Bucket) (px : PriceIndexInfo)
    (hpx : (adjustedRecordFor sqrtFn claim o pim e).priceIndex = some px)
    (hguard : JSNum.truthyO px.targetPI = false ∨ JSNum.truthyO px.sourceMidPI = false ∨
      px.factor.isNaN = true) :
    (adjustedRecordFor sqrtFn claim o pim e).totalAmount =
      (adjustedRecordFor sqrtFn claim o pim e).nominalAmount ∧
    ((JSNum.truthyO px.targetPI && JSNum.truthyO px.sourceMidPI) = false →
      px.factor = JSNum.fin 1) := by
  have hpx' := Option.some.inj hpx
  subst hpx'
  exact factor_guard_core _ _ _ hguard

/-- Record-level statement of the adjustment guards. -/
theorem aggRecordFor_factor_guard (sqrtFn : ℚ → ℚ) (claim : Claim)
    (obs : Option CalDate) (pim : Option PIMap) (buckets : List Bucket) (d : Int)
    (px : PriceIndexInfo)
    (hpx : (aggRecordFor sqrtFn claim obs pim buckets d).priceIndex = some px)
    (hguard : JSNum.truthyO px.targetPI = false ∨ JSNum.truthyO px.sourceMidPI = false ∨
      px.factor.isNaN = true) :
    (aggRecordFor sqrtFn claim obs pim buckets d).totalAmount =
      (aggRecordFor sqrtFn claim obs pim buckets d).nominalAmount ∧
    ((JSNum.truthyO px.targetPI && JSNum.truthyO px.sourceMidPI) = false →
      px.factor = JSNum.fin 1) := by
  unfold aggRecordFor at hpx ⊢
  cases hfind : buckets.find? (fun q => q.info.developmentQuarter = d) with
  | none =>
      rw [hfind] at hpx
      have hpx' : (none : Option PriceIndexInfo) = some px := hpx
      exact Option.noConfusion hpx'
  | some b =>
      rw [hfind] at hpx
      cases obs with
      | none =>
          have hpx' : (none : Option PriceIndexInfo) = some px := hpx
          exact Option.noConfusion hpx'
      | some o =>
          have hpx' : (adjustedRecordFor sqrtFn claim o pim b).priceIndex = some px := hpx
          exact adjustedRecordFor_factor_guard sqrtFn claim o pim b px hpx' hguard

/-- **C8 (amended).** During inflation adjustment, a record whose target
end-of-quarter index or source mid-quarter index is missing (or otherwise
falsy) gets adjustment factor `1.0` and `totalAmount = nominalAmount`, and a
record whose computed factor is `NaN` falls back to the nominal amount.
(A `±Infinity` factor is *not* guarded: only `isNaN` is checked.) -/
theorem aggregate_factor_guard (sqrtFn : ℚ → ℚ) (claim : Claim) (flag : Bool)
    (obs : Option CalDate) (pim : Option PIMap) (r : QuarterRecord)
    (hr : r ∈ (aggregateClaimToQuarters sqrtFn claim flag obs pim).quarters)
    (px : PriceIndexInfo) (hpx : r.priceIndex = some px)
    (hguard : JSNum.truthyO px.targetPI = false ∨ JSNum.truthyO px.sourceMidPI = false ∨
      px.factor.isNaN = true) :
    r.totalAmount = r.nominalAmount ∧
    ((JSNum.truthyO px.targetPI && JSNum.truthyO px.sourceMidPI) = false →
      px.factor = JSNum.fin 1) := by
  obtain ⟨d, hpi, htot, hnom⟩ :=
    mem_aggregate_quarters_shape sqrtFn claim flag obs pim r hr
  rw [hpi] at hpx
  rw [htot, hnom]
  exact aggRecordFor_factor_guard sqrtFn claim obs pim _ d px hpx hguard

/-- Witness for `aggregate_factor_guard`: with the 2020Q3 entry missing from
the price index map, the 2020Q2 record of `claimEx` keeps its nominal amount
and gets factor 1. -/
theorem aggregate_factor_guard_witness :
    recEx8.totalAmount = recEx8.nominalAmount ∧
    ((JSNum.truthyO pxEx8.targetPI && JSNum.truthyO pxEx8.sourceMidPI) = false →
      pxEx8.factor = JSNum.fin 1) :=
  aggregate_factor_guard sqrtEx claimEx false (some obsEx) (some pimMissing)
    recEx8 (by with_unfolding_all decide) pxEx8 rfl (Or.inl rfl)

/-- **C8 counterexample.**  With a price index map whose observation-quarter
entry is `+Infinity`, the computed factor is `+Infinity` — non-finite — yet
the adjusted `totalAmount` becomes `+Infinity` instead of falling back to the
nominal amount: only `NaN` is guarded, so Infinity does propagate. -/
theorem aggregate_factor_guard_counterexample :
    ((aggregateClaimToQuarters sqrtEx claimEx false (some obsEx)
        (some pimInf)).quarters.map (fun r =>
          (r.priceIndex.map (·.factor), r.totalAmount, r.nominalAmount))).get? 1 =
      some (some JSNum.inf, JSNum.inf, JSNum.fin 5) := by
  with_unfolding_all decide

/-- Witness for `aggregate_quarter_range_contiguous` at a concrete claim. -/
theorem aggregate_quarter_range_contiguous_witness :
    ((aggregateClaimToQuarters sqrtEx claimEx false none none).quarters.map
        (·.developmentQuarter)) =
      intRange (getQuarterInfo claimEx.accident claimEx.accident).developmentQuarter
        (getQuarterInfo claimEx.settlement claimEx.accident).developmentQuarter ∧
    ∀ r ∈ (aggregateClaimToQuarters sqrtEx claimEx false none none).quarters,
      (∀ p ∈ claimEx.payments,
          (getQuarterInfo p.date claimEx.accident).developmentQuarter ≠
            r.developmentQuarter) →
      r.totalAmount = JSNum.fin 0 ∧ r.nominalAmount = JSNum.fin 0 ∧
        r.paymentCount = 0 ∧ r.payments = [] :=
  aggregate_quarter_range_contiguous sqrtEx claimEx none none (by decide)

-- ------------------------------------------------------------------
-- Outstanding liability: monotone and zero at the final quarter (C4)
-- ------------------------------------------------------------------

theorem foldl_add_eq_sum (f : LiabQuarter → ℚ) :
    ∀ (l : List LiabQuarter) (a : ℚ),
      l.foldl (fun s q => s + f q) a = a + (l.map f).sum := by
  intro l
  induction l with
  | nil => intro a; simp
  | cons q rest ih =>
      intro a
      simp only [List.foldl_cons, List.map_cons, List.sum_cons, ih]
      ring

theorem mem_cumulativeList_ge (f : LiabQuarter → ℚ) :
    ∀ (l : List LiabQuarter) (s : ℚ), (∀ q ∈ l, 0 ≤ f q) →
      ∀ x ∈ cumulativeList f l s, s ≤ x := by
  intro l
  induction l with
  | nil => intro s _ x hx; cases hx
  | cons q rest ih =>
      intro s hf x hx
      have hq : 0 ≤ f q := hf q (List.mem_cons_self _ _)
      rcases List.mem_cons.mp hx with rfl | hx'
      · linarith
      · have := ih (s + f q) (fun q' hq' => hf q' (List.mem_cons_of_mem _ hq')) x hx'
        linarith

theorem pairwise_cumulativeList (f : LiabQuarter → ℚ) :
    ∀ (l : List LiabQuarter) (s : ℚ), (∀ q ∈ l, 0 ≤ f q) →
      (cumulativeList f l s).Pairwise (· ≤ ·) := by
  intro l
  induction l with
  | nil => intro s _; exact List.Pairwise.nil
  | cons q rest ih =>
      intro s hf
      refine List.Pairwise.cons ?_ (ih (s + f q)
        (fun q' hq' => hf q' (List.mem_cons_of_mem _ hq')))
      intro x hx
      exact mem_cumulativeList_ge f rest (s + f q)
        (fun q' hq' => hf q' (List.mem_cons_of_mem _ hq')) x hx

theorem getLast?_cumulativeList (f : LiabQuarter → ℚ) :
    ∀ (l : List LiabQuarter) (s : ℚ), l ≠ [] →
      (cumulativeList f l s).getLast? = some (s + (l.map f).sum) := by
  intro l
  induction l with
  | nil => intro s h; exact absurd rfl h
  | cons q rest ih =>
      intro s _
      cases hrest : rest with
      | nil => simp [cumulativeList, hrest]
      | cons q2 rest2 =>
          subst hrest
          have step1 : cumulativeList f (q :: q2 :: rest2) s =
              (s + f q) :: ((s + f q) + f q2) ::
                cumulativeList f rest2 ((s + f q) + f q2) := rfl
          have step2 : cumulativeList f (q2 :: rest2) (s + f q) =
              ((s + f q) + f q2) :: cumulativeList f rest2 ((s + f q) + f q2) := rfl
          rw [step1, List.getLast?_cons_cons, ← step2,
            ih (s + f q) (by simp)]
          simp only [List.map_cons, List.sum_cons, Option.some.injEq]
          ring

/-- **C4.** With the full quarter history and non-negative adjusted quarter
amounts, the per-quarter outstanding liability
`max(0, Ultimate − CumulativeToDate)` is non-increasing along development
quarters, and equals exactly 0 at the final quarter. -/
theorem outstanding_monotone_zero_final (endDate accidentDate : CalDate)
    (pim : Option (QKey → Option ℚ)) (midMap : QKey → Option ℚ)
    (quarters : List LiabQuarter)
    (hadj : ∀ q ∈ quarters, 0 ≤ adjustedThisQuarter endDate accidentDate pim midMap q) :
    (outstandingList endDate accidentDate pim midMap quarters).Pairwise
      (fun x y => y ≤ x) ∧
    (quarters ≠ [] →
      (outstandingList endDate accidentDate pim midMap quarters).getLast? = some 0) := by
  constructor
  · unfold outstandingList
    rw [List.pairwise_map]
    refine (pairwise_cumulativeList _ quarters 0 hadj).imp ?_
    intro c d hcd
    exact max_le_max le_rfl (sub_le_sub_left hcd _)
  · intro hne
    unfold outstandingList
    rw [List.getLast?_map, getLast?_cumulativeList _ quarters 0 hne]
    unfold ultimateClaimSize
    rw [foldl_add_eq_sum]
    simp

/-- Witness for `outstanding_monotone_zero_final` at two concrete records. -/
theorem outstanding_monotone_zero_final_witness :
    (outstandingList obsEx ⟨2020, 0⟩ none (fun _ => none) [liabQ1, liabQ2]).Pairwise
      (fun x y => y ≤ x) ∧
    (outstandingList obsEx ⟨2020, 0⟩ none (fun _ => none)
      [liabQ1, liabQ2]).getLast? = some 0 := by
  have h := outstanding_monotone_zero_final obsEx ⟨2020, 0⟩ none (fun _ => none)
    [liabQ1, liabQ2] (by
      intro q hq
      rcases List.mem_cons.mp hq with rfl | hq'
      · with_unfolding_all decide
      · rcases List.mem_cons.mp hq' with rfl | h2
        · with_unfolding_all decide
        · cases h2)
  exact ⟨h.1, h.2 (by simp)⟩

-- ------------------------------------------------------------------
-- Training-row counts (C9)
-- ------------------------------------------------------------------

/-- **C9.** The number of training rows equals
`max(0, min(settlementDevQ, observationDevQ) − notifyDevQ + 1)`, with one row
per development quarter from `notifyDevQ` to
`min(settlementDevQ, observationDevQ)` in order; when the notify development
quarter exceeds the observation cutoff's quarter no rows are generated. -/
theorem trainingRows_count (n s a e : CalDate) :
    ((trainingRowQuarters n s a e).length : Int) =
      max 0 (min (getQuarterInfo s a).developmentQuarter
          (getQuarterInfo e a).developmentQuarter -
        (getQuarterInfo n a).developmentQuarter + 1) ∧
    trainingRowQuarters n s a e =
      intRange (getQuarterInfo n a).developmentQuarter
        (min (getQuarterInfo s a).developmentQuarter
          (getQuarterInfo e a).developmentQuarter) ∧
    ((getQuarterInfo e a).developmentQuarter <
        (getQuarterInfo n a).developmentQuarter →
      trainingRowQuarters n s a e = []) := by
  have hc : (validNumRows n s a e).toNat =
      (min (getQuarterInfo s a).developmentQuarter
          (getQuarterInfo e a).developmentQuarter + 1 -
        (getQuarterInfo n a).developmentQuarter).toNat := by
    simp only [validNumRows]
    omega
  refine ⟨?_, ?_, ?_⟩
  · rw [trainingRowQuarters, List.length_map, List.length_range]
    simp only [validNumRows]
    omega
  · rw [trainingRowQuarters, intRange, hc]
  · intro h
    rw [trainingRowQuarters]
    have hz : (validNumRows n s a e).toNat = 0 := by
      simp only [validNumRows]
      omega
    rw [hz]
    rfl

/-- Witness for `trainingRows_count`: a claim notified after the observation
cutoff yields zero training rows. -/
theorem trainingRows_count_witness :
    ((trainingRowQuarters ⟨2021, 0⟩ ⟨2021, 6⟩ ⟨2020, 0⟩ ⟨2020, 0⟩).length : Int) =
      max 0 (min (getQuarterInfo ⟨2021, 6⟩ ⟨2020, 0⟩).developmentQuarter
          (getQuarterInfo ⟨2020, 0⟩ ⟨2020, 0⟩).developmentQuarter -
        (getQuarterInfo ⟨2021, 0⟩ ⟨2020, 0⟩).developmentQuarter + 1) ∧
    trainingRowQuarters ⟨2021, 0⟩ ⟨2021, 6⟩ ⟨2020, 0⟩ ⟨2020, 0⟩ = [] :=
  ⟨(trainingRows_count ⟨2021, 0⟩ ⟨2021, 6⟩ ⟨2020, 0⟩ ⟨2020, 0⟩).1,
    (trainingRows_count ⟨2021, 0⟩ ⟨2021, 6⟩ ⟨2020, 0⟩ ⟨2020, 0⟩).2.2 (by decide)⟩

-- ------------------------------------------------------------------
-- Cutoff normalization (C10)
-- ------------------------------------------------------------------

theorem list3_eq_getD (l : List Int) (h : l.length = 3) :
    l = [l.getD 0 0, l.getD 1 0, l.getD 2 0] := by
  rcases l with _ | ⟨a, _ | ⟨b, _ | ⟨c, _ | ⟨d, rest⟩⟩⟩⟩ <;> simp_all

theorem getD_mem_of_lt (l : List Int) (i : Nat) (h : i < l.length) :
    l.getD i 0 ∈ l := by
  rw [List.getD_eq_getElem?_getD, List.getElem?_eq_getElem h]
  exact List.getElem_mem h

/-- **C10.** The split engine normalizes its three cutoff inputs before any
partition decision: each is clamped into `[startDate, endDate]` and the three
are sorted ascending, so the thresholds actually used satisfy
`trainCut ≤ valCut ≤ testCut`; the normalization is order-insensitive in its
inputs, and feeding the normalized outputs back in reproduces them, so every
row-building decision behaves as if the user had supplied the cutoffs clamped
and in order.  No input triple is rejected. -/
theorem cutoffs_normalized (t v te s e : Int) :
    List.Sorted (· ≤ ·) (sortedCutoffs t v te s e) ∧
    (s ≤ e → ∀ x ∈ sortedCutoffs t v te s e, s ≤ x ∧ x ≤ e) ∧
    sortedCutoffs v t te s e = sortedCutoffs t v te s e ∧
    sortedCutoffs t te v s e = sortedCutoffs t v te s e ∧
    (s ≤ e →
      sortedCutoffs ((sortedCutoffs t v te s e).getD 0 0)
        ((sortedCutoffs t v te s e).getD 1 0)
        ((sortedCutoffs t v te s e).getD 2 0) s e =
      sortedCutoffs t v te s e) := by
  have hsorted : List.Sorted (· ≤ ·) (sortedCutoffs t v te s e) :=
    List.sorted_insertionSort _ _
  have hperm : List.Perm (sortedCutoffs t v te s e)
      [clampDate t s e, clampDate v s e, clampDate te s e] :=
    List.perm_insertionSort _ _
  have hmem : s ≤ e → ∀ x ∈ sortedCutoffs t v te s e, s ≤ x ∧ x ≤ e := by
    intro hse x hx
    have hx' := hperm.mem_iff.mp hx
    simp only [List.mem_cons, List.not_mem_nil, or_false] at hx'
    rcases hx' with rfl | rfl | rfl <;> (unfold clampDate; omega)
  refine ⟨hsorted, hmem, ?_, ?_, ?_⟩
  · refine List.eq_of_perm_of_sorted ?_ (List.sorted_insertionSort _ _) hsorted
    refine (List.perm_insertionSort _ _).trans
      ((List.Perm.swap _ _ _).trans hperm.symm)
  · refine List.eq_of_perm_of_sorted ?_ (List.sorted_insertionSort _ _) hsorted
    refine (List.perm_insertionSort _ _).trans
      ((List.Perm.cons _ (List.Perm.swap _ _ _)).trans hperm.symm)
  · intro hse
    set L := sortedCutoffs t v te s e with hL
    have hlen : L.length = 3 := by
      rw [hperm.length_eq]
      rfl
    have hl3 := list3_eq_getD L hlen
    have h0 := hmem hse (L.getD 0 0) (getD_mem_of_lt L 0 (by omega))
    have h1 := hmem hse (L.getD 1 0) (getD_mem_of_lt L 1 (by omega))
    have h2 := hmem hse (L.getD 2 0) (getD_mem_of_lt L 2 (by omega))
    have hclamp0 : clampDate (L.getD 0 0) s e = L.getD 0 0 := by
      unfold clampDate; omega
    have hclamp1 : clampDate (L.getD 1 0) s e = L.getD 1 0 := by
      unfold clampDate; omega
    have hclamp2 : clampDate (L.getD 2 0) s e = L.getD 2 0 := by
      unfold clampDate; omega
    show sortedCutoffs (L.getD 0 0) (L.getD 1 0) (L.getD 2 0) s e = L
    simp only [sortedCutoffs]
    rw [hclamp0, hclamp1, hclamp2, ← hl3]
    exact List.eq_of_perm_of_sorted (List.perm_insertionSort _ _)
      (List.sorted_insertionSort _ _) hsorted

/-- Witness for `cutoffs_normalized` at concrete out-of-order, out-of-window
cutoffs. -/
theorem cutoffs_normalized_witness :
    List.Sorted (· ≤ ·) (sortedCutoffs 150 (-5) 50 0 100) ∧
    (∀ x ∈ sortedCutoffs 150 (-5) 50 0 100, 0 ≤ x ∧ x ≤ 100) ∧
    sortedCutoffs (-5) 150 50 0 100 = sortedCutoffs 150 (-5) 50 0 100 ∧
    sortedCutoffs ((sortedCutoffs 150 (-5) 50 0 100).getD 0 0)
      ((sortedCutoffs 150 (-5) 50 0 100).getD 1 0)
      ((sortedCutoffs 150 (-5) 50 0 100).getD 2 0) 0 100 =
      sortedCutoffs 150 (-5) 50 0 100 := by
  have h := cutoffs_normalized 150 (-5) 50 0 100
  exact ⟨h.1, h.2.1 (by decide), h.2.2.1, h.2.2.2.2 (by decide)⟩

-- ------------------------------------------------------------------
-- Leakage duplication boundaries (C5)
-- ------------------------------------------------------------------

theorem hasDuplicateFor_iff (tc vc te : Int) (c : SplitClaim) :
    hasDuplicateFor tc vc te c = true ↔
    ((datasetForDate tc vc te c.notify = Dataset.train ∧
        tc < c.settlement ∧ c.settlement < vc) ∨
      (datasetForDate tc vc te c.notify = Dataset.val ∧
        vc < c.settlement ∧ c.settlement < te)) := by
  unfold hasDuplicateFor
  cases hds : datasetForDate tc vc te c.notify <;>
    simp [hds, cutoffFor, Bool.and_eq_true, Bool.or_eq_true, decide_eq_true_eq] <;>
    omega

/-- **C5 (amended).** In leakage-duplication mode a censored TRAIN claim gets
a duplicate row in VAL (uncensored, `leakUntil = trainCut`) exactly when its
settlement lies strictly in the *open* interval `(trainCut, valCut)`;
symmetrically a censored VAL claim duplicates into TEST exactly when its
settlement lies in `(valCut, testCut)`; no other rows are duplicated. -/
theorem notifyDup_duplicate_characterization (tc vc te : Int) (c : SplitClaim)
    (idx : Nat) :
    (notifyDupRowsFor tc vc te c idx).filter (·.isDuplicate) =
      (if datasetForDate tc vc te c.notify = Dataset.train ∧
          tc < c.settlement ∧ c.settlement < vc then [valDupRow tc c idx]
      else if datasetForDate tc vc te c.notify = Dataset.val ∧
          vc < c.settlement ∧ c.settlement < te then [testDupRow vc c idx]
      else []) := by
  by_cases hdup : hasDuplicateFor tc vc te c = true
  · rcases (hasDuplicateFor_iff tc vc te c).mp hdup with ⟨hds, h1, h2⟩ | ⟨hds, h1, h2⟩
    · rw [if_pos ⟨hds, h1, h2⟩]
      simp [notifyDupRowsFor, hdup, hds, List.filter, valDupRow]
    · rw [if_neg (by
          rintro ⟨hds2, _, _⟩
          rw [hds] at hds2
          cases hds2),
        if_pos ⟨hds, h1, h2⟩]
      simp [notifyDupRowsFor, hdup, hds, List.filter, testDupRow]
  · have hnot := (not_congr (hasDuplicateFor_iff tc vc te c)).mp hdup
    push_neg at hnot
    have hdupf : hasDuplicateFor tc vc te c = false := by
      simpa using hdup
    rw [if_neg (fun h => absurd (hnot.1 h.1 h.2.1) (not_le.mpr h.2.2)),
      if_neg (fun h => absurd (hnot.2 h.1 h.2.1) (not_le.mpr h.2.2))]
    simp [notifyDupRowsFor, hdupf, List.filter]

/-- **C5 counterexample.**  A TRAIN claim (notify 5 < trainCut 10), censored
(settlement 20 > trainCut), with settlement exactly equal to valCut 20 — i.e.
settlement ∈ (trainCut, valCut] as the claim demands — receives *no*
duplicate row: the code requires `settlement < valCut` strictly. -/
theorem notifyDup_boundary_counterexample :
    (notifyDupRowsFor 10 20 30 ⟨5, 20⟩ 0).filter (·.isDuplicate) = [] ∧
    datasetForDate 10 20 30 (5 : Int) = Dataset.train ∧
    cutoffFor 10 20 30 (datasetForDate 10 20 30 (5 : Int)) < 20 ∧
    (10 : Int) < 20 ∧ (20 : Int) ≤ 20 := by
  decide

-- ------------------------------------------------------------------
-- Price index series shape (C6)
-- ------------------------------------------------------------------

theorem m32next_bounds (a : Nat) : 0 ≤ (m32next a).1 ∧ (m32next a).1 < 1 := by
  simp only [m32next]
  constructor
  · positivity
  · rw [div_lt_one (by norm_num)]
    exact_mod_cast Nat.mod_lt _ (by norm_num)

theorem genPriceIndexQuarters_length :
    ∀ (fuel st : Nat) (idx : ℚ) (qi : Int),
      (genPriceIndexQuarters fuel st idx qi).length = fuel := by
  intro fuel
  induction fuel with
  | zero => intro st idx qi; rfl
  | succ n ih =>
      intro st idx qi
      simp only [genPriceIndexQuarters, List.length_cons, ih]

theorem intRange_cons {a b : Int} (h : a ≤ b) :
    intRange a b = a :: intRange (a + 1) b := by
  unfold intRange
  have hc : (b + 1 - a).toNat = (b + 1 - (a + 1)).toNat + 1 := by omega
  rw [hc, List.range_succ_eq_map, List.map_cons, List.map_map]
  congr 1
  · norm_num
  · refine List.map_congr_left fun i _ => ?_
    simp only [Function.comp_apply]
    push_cast
    ring

theorem genPriceIndexQuarters_keys :
    ∀ (fuel st : Nat) (idx : ℚ) (qi : Int),
      (genPriceIndexQuarters fuel st idx qi).map Prod.fst =
        (intRange qi (qi + fuel - 1)).map qkeyOfQuarterIndex := by
  intro fuel
  induction fuel with
  | zero =>
      intro st idx qi
      have h0 : (qi + (0 : Nat) - 1 + 1 - qi).toNat = 0 := by omega
      simp [genPriceIndexQuarters, intRange, h0]
  | succ n ih =>
      intro st idx qi
      rw [intRange_cons (by push_cast; omega)]
      simp only [genPriceIndexQuarters, List.map_cons, ih]
      have he : qi + ((n : Nat) + 1 : Nat) - 1 = (qi + 1) + (n : Nat) - 1 := by
        push_cast
        ring
      rw [he]

theorem genPriceIndexQuarters_floor :
    ∀ (fuel st : Nat) (idx : ℚ) (qi : Int) (v : ℚ),
      v ∈ (genPriceIndexQuarters fuel st idx qi).map Prod.snd → 60 ≤ v := by
  intro fuel
  induction fuel with
  | zero => intro st idx qi v hv; simp [genPriceIndexQuarters] at hv
  | succ n ih =>
      intro st idx qi v hv
      simp only [genPriceIndexQuarters, List.map_cons, List.mem_cons] at hv
      rcases hv with rfl | hv'
      · exact le_max_left _ _
      · exact ih _ _ _ v hv'

theorem genPriceIndexQuarters_values :
    ∀ (fuel st : Nat) (idx : ℚ) (qi : Int) (i : Nat), i < fuel →
      ∃ d n : ℚ, 13 / 1000 ≤ d ∧ d < 19 / 1000 ∧ -(4 / 1000) ≤ n ∧ n < 4 / 1000 ∧
        ((genPriceIndexQuarters fuel st idx qi).map Prod.snd).get? i =
          some (max 60 ((if i = 0 then idx
            else ((genPriceIndexQuarters fuel st idx qi).map Prod.snd).getD
              (i - 1) 0) * (1 + d + n))) := by
  intro fuel
  induction fuel with
  | zero => intro st idx qi i hi; exact absurd hi (by omega)
  | succ fN ih =>
      intro st idx qi i hi
      have hb1 := m32next_bounds st
      have hb2 := m32next_bounds (m32next st).2
      cases i with
      | zero =>
          refine ⟨13 / 1000 + (m32next st).1 * (6 / 1000),
            ((m32next (m32next st).2).1 - 1 / 2) * (8 / 1000),
            by linarith [hb1.1], by linarith [hb1.2],
            by linarith [hb2.1], by linarith [hb2.2], ?_⟩
          simp [genPriceIndexQuarters]
      | succ j =>
          have hj : j < fN := by omega
          obtain ⟨d, n, h1, h2, h3, h4, hval⟩ := ih (m32next (m32next st).2).2
            (max 60 (idx * (1 + (13 / 1000 + (m32next st).1 * (6 / 1000)) +
              (((m32next (m32next st).2).1 - 1 / 2) * (8 / 1000))))) (qi + 1) j hj
          refine ⟨d, n, h1, h2, h3, h4, ?_⟩
          simp only [genPriceIndexQuarters, List.map_cons, List.get?_cons_succ]
          rw [hval]
          cases j with
          | zero => simp
          | succ k => simp [List.getD_cons_succ]

/-- **C6 (amended).** `generatePriceIndexSeries` emits one end-of-quarter
value per calendar quarter of the window, in order; the *first* quarter's
value is already `100·(1 + drift + noise)` floored at 60 (the base 100 is the
value *before* the first quarter, not the first entry); each subsequent value
is the previous value times `(1 + drift + noise)` floored at 60, with
`drift ∈ [0.013, 0.019)` and `noise ∈ [−0.004, 0.004)`; every emitted value
is at least 60. -/
theorem generatePriceIndexSeries_spec (startDate endDate : CalDate) (seed : Nat) :
    (generatePriceIndexSeries startDate endDate seed).length =
      (quarterIndexOf endDate + 1 - quarterIndexOf startDate).toNat ∧
    (generatePriceIndexSeries startDate endDate seed).map Prod.fst =
      (intRange (quarterIndexOf startDate) (quarterIndexOf endDate)).map
        qkeyOfQuarterIndex ∧
    (∀ v ∈ (generatePriceIndexSeries startDate endDate seed).map Prod.snd,
      60 ≤ v) ∧
    (∀ i, i < (generatePriceIndexSeries startDate endDate seed).length →
      ∃ d n : ℚ, 13 / 1000 ≤ d ∧ d < 19 / 1000 ∧ -(4 / 1000) ≤ n ∧ n < 4 / 1000 ∧
        ((generatePriceIndexSeries startDate endDate seed).map Prod.snd).get? i =
          some (max 60 ((if i = 0 then (100 : ℚ)
            else ((generatePriceIndexSeries startDate endDate seed).map
              Prod.snd).getD (i - 1) 0) * (1 + d + n)))) := by
  refine ⟨genPriceIndexQuarters_length _ _ _ _, ?_, ?_, ?_⟩
  · unfold generatePriceIndexSeries
    rw [genPriceIndexQuarters_keys]
    by_cases h : quarterIndexOf startDate ≤ quarterIndexOf endDate
    · have he : quarterIndexOf startDate +
          ((quarterIndexOf endDate + 1 - quarterIndexOf startDate).toNat : Int) - 1 =
          quarterIndexOf endDate := by omega
      rw [he]
    · have h1 : ((quarterIndexOf endDate + 1 - quarterIndexOf startDate).toNat : Int)
          = 0 := by omega
      rw [h1]
      have h2 : (quarterIndexOf startDate + 0 - 1 + 1 -
          quarterIndexOf startDate).toNat = 0 := by omega
      have h3 : (quarterIndexOf endDate + 1 - quarterIndexOf startDate).toNat = 0 :=
        by omega
      simp [intRange, h2, h3]
  · intro v hv
    exact genPriceIndexQuarters_floor _ _ _ _ v hv
  · intro i hi
    unfold generatePriceIndexSeries at hi ⊢
    rw [genPriceIndexQuarters_length] at hi
    exact genPriceIndexQuarters_values _ _ _ _ i hi

/-- Witness for `generatePriceIndexSeries_spec` on the window 2020Q1–2020Q2
with seed 1. -/
theorem generatePriceIndexSeries_spec_witness :
    (generatePriceIndexSeries ⟨2020, 0⟩ ⟨2020, 3⟩ 1).length = 2 ∧
    (generatePriceIndexSeries ⟨2020, 0⟩ ⟨2020, 3⟩ 1).map Prod.fst =
      [(2020, 1), (2020, 2)] ∧
    (∃ d n : ℚ, 13 / 1000 ≤ d ∧ d < 19 / 1000 ∧ -(4 / 1000) ≤ n ∧ n < 4 / 1000 ∧
      ((generatePriceIndexSeries ⟨2020, 0⟩ ⟨2020, 3⟩ 1).map Prod.snd).get? 0 =
        some (max 60 ((100 : ℚ) * (1 + d + n)))) := by
  have h := generatePriceIndexSeries_spec ⟨2020, 0⟩ ⟨2020, 3⟩ 1
  refine ⟨?_, ?_, ?_⟩
  · rw [h.1]
    decide
  · rw [h.2.1]
    decide
  · have hlen : (generatePriceIndexSeries ⟨2020, 0⟩ ⟨2020, 3⟩ 1).length = 2 := by
      rw [h.1]; decide
    obtain ⟨d, n, h1, h2, h3, h4, hval⟩ := h.2.2.2 0 (by omega)
    exact ⟨d, n, h1, h2, h3, h4, by simpa using hval⟩

/-- **C6 counterexample.**  With seed 1 and a one-quarter window the first
series value is not 100: the code multiplies by `(1 + drift + noise)` before
pushing the first quarter, and `drift + noise ≥ 0.009 > 0`, so the first
value is at least 100.9. -/
theorem generatePriceIndexSeries_first_not_100 :
    ((generatePriceIndexSeries ⟨2020, 0⟩ ⟨2020, 0⟩ 1).map Prod.snd).get? 0 ≠
      some (100 : ℚ) := by
  intro heq
  have hgen : generatePriceIndexSeries ⟨2020, 0⟩ ⟨2020, 0⟩ 1 =
      genPriceIndexQuarters 1 (Nat.xor 1 0x9E3779B9 % 4294967296) 100 8080 := rfl
  obtain ⟨d, n, h1, h2, h3, h4, hval⟩ :=
    genPriceIndexQuarters_values 1 (Nat.xor 1 0x9E3779B9 % 4294967296) 100 8080 0
      (by omega)
  have hval' : ((generatePriceIndexSeries ⟨2020, 0⟩ ⟨2020, 0⟩ 1).map
      Prod.snd).get? 0 = some (max 60 ((100 : ℚ) * (1 + d + n))) := by
    rw [hgen]
    simpa using hval
  rw [hval'] at heq
  have hge : (100 : ℚ) * (1 + d + n) ≥ 100 + 9 / 10 := by nlinarith
  have hmax : max (60 : ℚ) ((100 : ℚ) * (1 + d + n)) = (100 : ℚ) * (1 + d + n) :=
    max_eq_right (by linarith)
  rw [hmax] at heq
  have : (100 : ℚ) * (1 + d + n) = 100 := by exact_mod_cast Option.some.inj heq
  linarith

-- ------------------------------------------------------------------
-- Generator determinism (C1) and draw order (C7)
-- ------------------------------------------------------------------

/-- **C1.** Claim generation is a pure function of the parameter set and the
string seed: the embedding threads the single `mulberry32` counter explicitly
and uses no other state, so two independent runs over the same seed text
produce identical claim populations — the same dates, payment lists, amounts,
static covariates and ordering. -/
theorem generateClaims_deterministic (p : GenParams) (seedText : List Nat) :
    generateClaimsRun1 p seedText = generateClaimsRun2 p seedText := rfl

theorem genPayments_trace (notify settlement : Int) :
    ∀ (k st : Nat), (genPayments notify settlement k st).2.1 =
      (List.replicate k [DrawTag.paymentDate, DrawTag.paymentAmount]).flatten := by
  intro k
  induction k with
  | zero => intro st; rfl
  | succ j ih =>
      intro st
      simp only [genPayments, List.replicate_succ, List.flatten_cons, ih]
      rfl

/-- **C7 (amended).** Per claim, the PRNG draws occur in the fixed order:
accident date offset first, then notify date, then duration, then payment
count, then for each of the `k` generated payments a date and then an
amount, then the postcode, claim type and region covariate draws. -/
theorem genOneClaim_draw_order (p : GenParams) (i : Nat) (st : Nat) :
    ∃ k : Nat, (genOneClaim p i st).2.1 =
      [DrawTag.accidentOffset, DrawTag.notifyDate, DrawTag.duration,
          DrawTag.paymentCount] ++
        (List.replicate k [DrawTag.paymentDate, DrawTag.paymentAmount]).flatten ++
        [DrawTag.postcode, DrawTag.claimType, DrawTag.region] := by
  unfold genOneClaim
  simp only [genPayments_trace]
  exact ⟨_, rfl⟩

/-- **C7 counterexample.**  The first two draws of a claim are the accident
offset and then the notify date — not the notify date first, as the claim
states. -/
theorem genOneClaim_draw_order_counterexample :
    (genOneClaim genParamsEx 0 1).2.1.take 2 =
      [DrawTag.accidentOffset, DrawTag.notifyDate] ∧
    ([DrawTag.accidentOffset, DrawTag.notifyDate] ≠
      [DrawTag.notifyDate, DrawTag.accidentOffset]) := by
  exact ⟨rfl, by decide⟩

end Reserving
